import Mathlib

/-!
# dashing2: the per-file sketching pipeline (`src/fastxsketch.cpp`, `src/sketch_core.cpp`)

A shallow embedding of the bottom-k selector, the destination namer, the artifact cache,
the FULL_MMER_SEQUENCE buffer, the by-sequence merger, the set-up and the matrix writes of
`fastx2sketch`, and the BED / BIGWIG branch of `sketch_core`, with the properties the
specification states about them.

Conventions.
* Machine integers are `Nat`; a conversion to a narrower unsigned type is `% 2 ^ bits`.
* `double` values that are only compared (`count > threshold`) are rationals.
* `std::string` is `String`; `find_first_of` / `substr` work on the character list.
* Undefined behaviour (reading the top of an empty heap, an index past the end of an
  array, an integer division by zero) makes the embedded function return `none`.
* A parallel `for` whose iterations write disjoint slots is the sequential loop.
-/

namespace Dashing2

/-! ## Bottom-k selector (`bottomk`, fastxsketch.cpp lines 17-39) -/

/-- Width in bits of `BKRegT` (line 17), chosen from `sizeof(RegT)`: 4 bytes give
`uint32_t`, 8 bytes give `uint64_t`, anything else gives `u128_t`. `RegT` itself is
declared in a header, so its size is a parameter. -/
def BKRegT_bits (sizeofRegT : Nat) : Nat :=
  if sizeofRegT = 4 then 32 else if sizeofRegT = 8 then 64 else 128

/-- The `std::priority_queue<BKRegT>` of `bottomk`: a max-heap, represented by its
content in non-increasing order, so that the top is the head of the list. -/
abbrev PQ := List Nat

/-- The call `pq.push(key)`. -/
def PQ.push (pq : PQ) (key : Nat) : PQ :=
  List.orderedInsert (fun a b => b ≤ a) key pq

/-- The call `pq.top()`; the standard leaves it undefined on an empty queue. -/
def PQ.top (pq : PQ) : Option Nat :=
  pq.head?

/-- The call `pq.pop()`; the standard leaves it undefined on an empty queue. -/
def PQ.pop (pq : PQ) : Option PQ :=
  match pq with
  | [] => none
  | _ :: rest => some rest

/-- The expression `ptr ? ptr[i] : CountT(1)` (line 25): without a count array every item
counts once; with one, reading past its end is undefined. -/
def countAt (ptr : Option (List ℚ)) (i : Nat) : Option ℚ :=
  match ptr with
  | none => some 1
  | some cs => cs.get? i

/-- The heap update of lines 28-31 for a key that passed the count test: push while the
queue holds fewer than `k` keys, otherwise replace the top when the key is smaller. -/
def admitKey (k : Nat) (pq : PQ) (key : Nat) : Option PQ :=
  if pq.length < k then some (PQ.push pq key)
  else
    match PQ.top pq with
    | none => none
    | some t =>
      if key < t then (PQ.pop pq).map (fun q => PQ.push q key)
      else some pq

/-- One iteration of the scan (lines 24-32) for the item at index `i`; the conversion
`const BKRegT key = item` keeps the low `bits` bits. -/
def bottomkStep (bits k : Nat) (threshold : ℚ) (ptr : Option (List ℚ))
    (pq : PQ) (i item : Nat) : Option PQ :=
  match countAt ptr i with
  | none => none
  | some count =>
    if threshold < count then admitKey k pq (item % 2 ^ bits)
    else some pq

/-- The scan `for(size_t i = 0; i < sz; ++i)` (lines 23-33), from index `i` on. -/
def bottomkScan (bits k : Nat) (threshold : ℚ) (ptr : Option (List ℚ)) :
    PQ → Nat → List Nat → Option PQ
  | pq, _, [] => some pq
  | pq, i, item :: rest =>
    match bottomkStep bits k threshold ptr pq i item with
    | none => none
    | some pq1 => bottomkScan bits k threshold ptr pq1 (i + 1) rest

/-- The fill loop `for(size_t i = k; i > 0;)` (lines 34-38): `ret[i-1]` receives the
top, which is then popped; `acc` holds the slots already filled, `ret[i..k)`. -/
def bottomkFill : Nat → PQ → List Nat → Option (List Nat)
  | 0, _, acc => some acc
  | i + 1, pq, acc =>
    match PQ.top pq, PQ.pop pq with
    | some t, some rest => bottomkFill i rest (t :: acc)
    | _, _ => none

/-- The function `bottomk(src, ret, threshold, ptr)` with `ret.size() = k`: the content of
`ret` on return, or `none` when the run reads the top of an empty queue or a count
past the end of the count array. -/
def bottomk (bits : Nat) (src : List Nat) (k : Nat) (threshold : ℚ)
    (ptr : Option (List ℚ)) : Option (List Nat) :=
  match bottomkScan bits k threshold ptr [] 0 src with
  | none => none
  | some pq => bottomkFill k pq []

/-- The admitted keys, in input order: the items whose count is strictly greater than the
threshold, the count being 1 when no counts are given. -/
def admittedFrom (threshold : ℚ) (ptr : Option (List ℚ)) : Nat → List Nat → List Nat
  | _, [] => []
  | i, item :: rest =>
    match countAt ptr i with
    | some count =>
      if threshold < count then item :: admittedFrom threshold ptr (i + 1) rest
      else admittedFrom threshold ptr (i + 1) rest
    | none => admittedFrom threshold ptr (i + 1) rest

/-- The admitted keys of a whole input. -/
def admitted (src : List Nat) (threshold : ℚ) (ptr : Option (List ℚ)) : List Nat :=
  admittedFrom threshold ptr 0 src

/-- The specification's bottom-k: the `ss` smallest distinct admitted keys, ascending. -/
def bottomkSpec (src : List Nat) (ss : Nat) (threshold : ℚ) (ptr : Option (List ℚ)) :
    List Nat :=
  (((admitted src threshold ptr).insertionSort (fun a b => a ≤ b)).dedup).take ss

/-- What the code computes when enough keys are admitted: the `ss` smallest admitted keys,
ascending, a repeated key kept as often as it occurs. -/
def bottomkMulti (src : List Nat) (ss : Nat) (threshold : ℚ) (ptr : Option (List ℚ)) :
    List Nat :=
  ((admitted src threshold ptr).insertionSort (fun a b => a ≤ b)).take ss

/-! ## Options and the destination namer (`makedest`, fastxsketch.cpp lines 219-243) -/

/-- The similarity space `opts.sspace_`. -/
inductive SketchSpace
  | SPACE_SET
  | SPACE_MULTISET
  | SPACE_PSET
  | SPACE_EDIT_DISTANCE
  deriving DecidableEq

/-- The output kind `opts.kmer_result_`. The source compares it with `<` (line 273); the
values below `FULL_MMER_SET` are `ONE_PERM` and `FULL_SETSKETCH`, the fixed-width
sketches. -/
inductive KmerSketchResultType
  | ONE_PERM
  | FULL_SETSKETCH
  | FULL_MMER_SET
  | FULL_MMER_SEQUENCE
  | FULL_MMER_COUNTDICT
  deriving DecidableEq

/-- The test `opts.kmer_result_ < FULL_MMER_SET` of line 273. -/
def KmerSketchResultType.belowFullMmerSet : KmerSketchResultType → Bool
  | .ONE_PERM => true
  | .FULL_SETSKETCH => true
  | _ => false

/-- The fields and accessors of `Dashing2Options` that `fastx2sketch` reads. The counting
type `ct()` and the rolling-hash type `rht_` are enumerations declared in headers; they
are kept as their numeric codes. -/
structure Dashing2Options where
  k_ : Nat
  w_ : Nat
  sketchsize_ : Nat
  sspace_ : SketchSpace
  kmer_result_ : KmerSketchResultType
  count_threshold_ : ℚ
  save_kmers_ : Bool
  save_kmercounts_ : Bool
  build_sig_matrix_ : Bool
  build_mmer_matrix_ : Bool
  build_count_matrix_ : Bool
  cache_sketches_ : Bool
  use128 : Bool
  parse_by_seq_ : Bool
  parse_protein : Bool
  homopolymer_compress_minimizers_ : Bool
  trim_folder_paths_ : Bool
  outprefix_ : String
  ct : Nat
  rht_ : Nat
  fs_ : Option (Nat → Bool)

/-- The string conversions `makedest` calls and that are declared outside this file:
`to_string(opts.ct())`, `to_string(opts.sspace_)`, `bns::to_string(opts.rht_)`,
`std::to_string(double)` and `to_suffix(opts)`. -/
structure Renderers where
  ctTag : Nat → String
  sspaceTag : SketchSpace → String
  rhtTag : Nat → String
  doubleToString : ℚ → String
  to_suffix : Dashing2Options → String

/-- The expression `s.substr(0, s.find_first_of(' '))`: the text before the first space, the
whole string when it has none. -/
def truncAtSpace (s : String) : String :=
  String.mk (s.data.takeWhile (fun c => c != ' '))

/-- Modelled from the spec: `trim_folder` is declared in a header; the specification calls
its result the basename, the text after the last `/` (the whole string when it has
none). -/
def trim_folder (s : String) : String :=
  String.mk ((s.data.reverse.takeWhile (fun c => c != '/')).reverse)

/-- The lambda `makedest` (lines 220-243), statement by statement; `suffix` is the value
of `to_suffix(opts)` computed at line 219. -/
def makedest (R : Renderers) (opts : Dashing2Options) (path : String) : String :=
  let suffix := R.to_suffix opts
  let ret := path
  let ret := truncAtSpace ret
  let ret :=
    if opts.trim_folder_paths_ then
      let ret := trim_folder path
      if opts.outprefix_.length ≠ 0 then opts.outprefix_ ++ "/" ++ ret else ret
    else ret
  let ret := ret ++ "." ++ Nat.repr opts.k_
  let ret := if opts.w_ > opts.k_ then ret ++ "." ++ Nat.repr opts.w_ else ret
  let ret :=
    if opts.count_threshold_ > 0 then ret ++ "." ++ R.doubleToString opts.count_threshold_
    else ret
  let ret :=
    if opts.sspace_ ≠ SketchSpace.SPACE_SET ∧ opts.sspace_ ≠ SketchSpace.SPACE_EDIT_DISTANCE
    then ret ++ "." ++ R.ctTag opts.ct
    else ret
  let ret := ret ++ "." ++ R.sspaceTag opts.sspace_
  let ret := ret ++ "." ++ R.rhtTag opts.rht_
  let ret := ret ++ suffix
  ret

/-- The base name `makedest` starts from (lines 221-228). -/
def destBase (opts : Dashing2Options) (path : String) : String :=
  if opts.trim_folder_paths_ then
    if opts.outprefix_.length ≠ 0 then opts.outprefix_ ++ "/" ++ trim_folder path
    else trim_folder path
  else truncAtSpace path

/-- The specification's list of appended components, in order (section 4.2, step 3). -/
def destComponents (R : Renderers) (opts : Dashing2Options) : List String :=
  ["." ++ Nat.repr opts.k_]
  ++ (if opts.w_ > opts.k_ then ["." ++ Nat.repr opts.w_] else [])
  ++ (if opts.count_threshold_ > 0 then ["." ++ R.doubleToString opts.count_threshold_] else [])
  ++ (if opts.sspace_ = SketchSpace.SPACE_SET ∨ opts.sspace_ = SketchSpace.SPACE_EDIT_DISTANCE
      then [] else ["." ++ R.ctTag opts.ct])
  ++ ["." ++ R.sspaceTag opts.sspace_, "." ++ R.rhtTag opts.rht_, R.to_suffix opts]

/-- A base followed by components, each appended in turn. -/
def appendAll (base : String) (components : List String) : String :=
  components.foldl (fun acc c => acc ++ c) base

/-- Sample string conversions, used only to evaluate `makedest` on concrete inputs, where
the destination serves as a file name. The conversions themselves are declared outside
the source files; the sample suffix is the one the naming code of `sketch_core` uses
(sketch_core.cpp lines 52-56). -/
def sampleRenderers : Renderers where
  ctTag := fun c => if c = 0 then "exact" else "countmin"
  sspaceTag := fun s =>
    match s with
    | .SPACE_SET => "SET"
    | .SPACE_MULTISET => "MULTISET"
    | .SPACE_PSET => "PSET"
    | .SPACE_EDIT_DISTANCE => "EDIT_DISTANCE"
  rhtTag := fun r => if r = 0 then "DNA" else "PROTEIN"
  doubleToString := fun q => Nat.repr q.num.toNat ++ ".000000"
  to_suffix := fun opts =>
    match opts.sspace_ with
    | .SPACE_SET =>
      if opts.kmer_result_ = KmerSketchResultType.ONE_PERM then ".opss" else ".ss"
    | .SPACE_MULTISET => ".bmh"
    | .SPACE_PSET => ".pmh"
    | .SPACE_EDIT_DISTANCE => ".omh"

/-- A sample configuration: `k = 31`, SET space, one-permutation sketch, caching on. -/
def sampleOpts : Dashing2Options where
  k_ := 31
  w_ := 0
  sketchsize_ := 4
  sspace_ := SketchSpace.SPACE_SET
  kmer_result_ := KmerSketchResultType.ONE_PERM
  count_threshold_ := 0
  save_kmers_ := false
  save_kmercounts_ := false
  build_sig_matrix_ := true
  build_mmer_matrix_ := false
  build_count_matrix_ := false
  cache_sketches_ := true
  use128 := false
  parse_by_seq_ := false
  parse_protein := false
  homopolymer_compress_minimizers_ := false
  trim_folder_paths_ := false
  outprefix_ := ""
  ct := 0
  rht_ := 0
  fs_ := none

/-! ## FULL_MMER_SEQUENCE buffer (fastxsketch.cpp lines 295-319 and 430-457) -/

/-- The filter of line 298: `lfunc` hands `x` on unless a filter set is configured and
contains it. -/
def passesFilter (fs_ : Option (Nat → Bool)) (x : Nat) : Bool :=
  match fs_ with
  | none => true
  | some in_set => !in_set x

/-- The width in bytes of the values the selected encoder hands to the handler, the type
`DT` of line 440 (lines 300-316): the exact encoder emits 64-bit values for `k < 32` and
128-bit values otherwise; the rolling hash emits 128-bit values exactly when `use128`. -/
def encoderBytes (opts : Dashing2Options) : Nat :=
  if opts.parse_protein = false ∧ (opts.w_ > opts.k_ ∨ opts.k_ ≤ 64) then
    if opts.k_ < 32 then 8 else 16
  else if opts.use128 then 16 else 8

/-- The width in bytes `(1 + opts.use128()) * sizeof(uint64_t)` used for the allocation of
line 437 and the write of line 454. -/
def bufferBytes (opts : Dashing2Options) : Nat :=
  (1 + (if opts.use128 then 1 else 0)) * 8

/-- The number of bytes the write of line 454 sends to the destination for `l` stored
elements. -/
def seqBytesWritten (opts : Dashing2Options) (l : Nat) : Nat :=
  l * (1 + (if opts.use128 then 1 else 0)) * 8

/-- The number of whole stored elements a file of `nb` bytes holds. -/
def storedElements (opts : Dashing2Options) (nb : Nat) : Nat :=
  nb / encoderBytes opts

/-- The growable buffer of Mode B: `ptr` holds the elements stored so far, each of the
encoder's width, `m` is the capacity in elements as the handler counts it, `l` the
number of stored elements and `bytes` the size in bytes of the allocation `dptr` points
to. -/
structure SeqBuf where
  ptr : List Nat
  m : Nat
  l : Nat
  bytes : Nat

/-- The growth of lines 442-449: when the buffer is full, `newm * sizeof(DT)` bytes are
allocated and the `m` elements copied over; reading them from past the old allocation
is undefined. -/
def seqGrow (dt : Nat) (b : SeqBuf) : Option SeqBuf :=
  if b.l = b.m then
    if b.m * dt ≤ b.bytes then
      some { ptr := b.ptr.take b.m, m := b.m <<< 1, l := b.l, bytes := (b.m <<< 1) * dt }
    else none
  else some b

/-- The store of lines 450-451: `x` is skipped when compression is on and it equals the
last stored value; otherwise it is stored at index `l`, which is undefined past the
allocation. -/
def seqStore (dt : Nat) (compress : Bool) (b : SeqBuf) (x : Nat) : Option SeqBuf :=
  if compress && decide (b.l > 0) && (b.ptr.get? (b.l - 1) == some x) then some b
  else if (b.l + 1) * dt ≤ b.bytes then
    some { ptr := b.ptr.take b.l ++ [x], m := b.m, l := b.l + 1, bytes := b.bytes }
  else none

/-- The handler of lines 439-452 for one m-mer `x` of `dt = sizeof(DT)` bytes: growth,
then store. -/
def seqPush (dt : Nat) (compress : Bool) (b : SeqBuf) (x : Nat) : Option SeqBuf :=
  match seqGrow dt b with
  | none => none
  | some b1 => seqStore dt compress b1 x

/-- The handler composed with the filter, folded over the emission stream of a path,
starting from an empty buffer. -/
def seqRun (fs_ : Option (Nat → Bool)) (dt : Nat) (compress : Bool) :
    List Nat → SeqBuf → Option SeqBuf
  | [], b => some b
  | x :: rest, b =>
    if passesFilter fs_ x then
      match seqPush dt compress b x with
      | none => none
      | some b1 => seqRun fs_ dt compress rest b1
    else seqRun fs_ dt compress rest b

/-- The buffer of Mode B after the whole stream: the initial capacity is `m = 1 << 20`
elements (line 435) in an allocation of `(1 + use128) * m * sizeof(uint64_t)` bytes
(line 437); the elements have the width of the selected encoder. -/
def fullMmerSequence (opts : Dashing2Options) (E : List Nat) : Option SeqBuf :=
  seqRun opts.fs_ (encoderBytes opts) opts.homopolymer_compress_minimizers_ E
    { ptr := [], m := 1 <<< 20, l := 0,
      bytes := (1 + (if opts.use128 then 1 else 0)) * (1 <<< 20) * 8 }

/-- The elements of the encoder's width the destination of Mode B holds after the write of
line 454, which sends the first `l * (1 + use128) * 8` bytes of the buffer: the stored
elements those bytes cover in full, or `none` when the write reaches past the stored
elements, into bytes that were never written. -/
def destElements (opts : Dashing2Options) (buf : SeqBuf) : Option (List Nat) :=
  if seqBytesWritten opts buf.l ≤ buf.l * encoderBytes opts then
    some (buf.ptr.take (storedElements opts (seqBytesWritten opts buf.l)))
  else none

/-- The specification's collapse of runs: each run of consecutive equal values becomes one
value. -/
def collapseRuns : List Nat → List Nat
  | [] => []
  | [x] => [x]
  | x :: y :: rest => if x = y then collapseRuns (y :: rest) else x :: collapseRuns (y :: rest)

/-- The specification's Mode B output: the stream without the members of the filter set
(the whole stream when no filter set is configured), with runs collapsed when
homopolymer compression is on. -/
def sequenceSpec (fs_ : Option (Nat → Bool)) (compress : Bool) (E : List Nat) : List Nat :=
  let kept : List Nat :=
    match fs_ with
    | none => E
    | some in_set => E.filter (fun x => in_set x = false)
  if compress then collapseRuns kept else kept

/-! ## The per-file iteration of `fastx2sketch` (fastxsketch.cpp lines 254-497) -/

/-- The files present, each with its size in bytes. -/
abbrev FS := List (String × Nat)

/-- The call `bns::isfile(p)`. -/
def FS.isfile (fs : FS) (p : String) : Bool :=
  (fs.lookup p).isSome

/-- The call `bns::filesize(p)`; `none` when the file is absent. -/
def FS.filesize (fs : FS) (p : String) : Option Nat :=
  fs.lookup p

/-- Opening `p` with mode `"wb"`, writing `nb` bytes and closing it. -/
def FS.write (fs : FS) (p : String) (nb : Nat) : FS :=
  (p, nb) :: fs.filter (fun e => e.1 != p)

/-- The expression `s.substr(0, s.find_last_of('.'))` (line 261): the text before the last
dot, the whole string when it has none. -/
def dropLastExt (s : String) : String :=
  if s.data.contains '.' then
    String.mk (((s.data.reverse.dropWhile (fun c => c != '.')).drop 1).reverse)
  else s

/-- The kmer-ids artifact name (line 262). -/
def destkmerOf (destination : String) : String :=
  dropLastExt destination ++ ".kmer.u64"

/-- The counts artifact name (line 263). -/
def destkmercountsOf (destination : String) : String :=
  dropLastExt destination ++ ".kmercounts.f64"

/-- What the collaborators of one file iteration deliver: the m-mers the enumerator emits
for the path, the keys and counts `Counter::finalize` returns for them, and whether the
`ids()` array of the sketch in use has a non-null data pointer. -/
structure FileInput where
  emissions : List Nat
  keys : List Nat
  kmerveccounts : List ℚ
  idsNonNull : Bool

/-- The branch a file iteration takes. -/
inductive Branch
  | cacheHit
  | modeA
  | modeB
  | modeC
  deriving DecidableEq

/-- The failures of a file iteration. -/
inductive SketchError
  | emptyPaths
  | editDistanceNeedsParseBySeq
  | missingFile
  | wrongSizeFile
  | nullIds
  | emptyPools
  | unexpectedSpace
  | unexpectedResultType
  | undefinedBehaviour
  deriving DecidableEq

/-- The observable result of one file iteration: the files afterwards, the branch taken,
the number of m-mers the enumerator emitted, and the cardinality stored for the row when
it is an exact integer (`none` for the floating-point estimates of the sketches). -/
structure FileOutcome where
  fs : FS
  branch : Branch
  emitted : Nat
  cardinality : Option Nat
  deriving DecidableEq

/-- The cache-hit condition of lines 267-271. -/
def cacheHit (opts : Dashing2Options) (fs : FS) (destination : String) : Bool :=
  let dkif := fs.isfile (destkmerOf destination)
  let dkcif := fs.isfile (destkmercountsOf destination)
  opts.cache_sketches_ &&
  fs.isfile destination &&
  (!opts.save_kmers_ || dkif) &&
  ((!opts.save_kmercounts_ && opts.kmer_result_ != KmerSketchResultType.FULL_MMER_COUNTDICT)
    || dkcif)

/-- The cache branch (lines 273-292). `kmers` and `counts` are the sizes of the result
matrices `ret.kmers_` and `ret.kmercounts_`; the signatures file is known to exist. -/
def cacheBranch (opts : Dashing2Options) (fs : FS) (path destination : String)
    (kmers counts : Nat) : Except SketchError FileOutcome :=
  if opts.kmer_result_.belowFullMmerSet then
    if kmers ≠ 0 ∧ fs.isfile (destkmerOf destination) = false then
      Except.error SketchError.missingFile
    else if counts ≠ 0 ∧ fs.isfile (destkmercountsOf destination) = false then
      Except.error SketchError.missingFile
    else Except.ok { fs := fs, branch := Branch.cacheHit, emitted := 0, cardinality := none }
  else if opts.kmer_result_ = KmerSketchResultType.FULL_MMER_COUNTDICT then
    match fs.filesize (destkmercountsOf destination) with
    | none => Except.error SketchError.missingFile
    | some sz =>
      if sz % 8 ≠ 0 then Except.error SketchError.wrongSizeFile
      else Except.ok { fs := fs, branch := Branch.cacheHit, emitted := 0, cardinality := none }
  else if opts.kmer_result_ = KmerSketchResultType.FULL_MMER_SET then
    Except.ok { fs := fs, branch := Branch.cacheHit, emitted := 0,
                cardinality := (fs.filesize path).map (fun sz => sz / (if opts.use128 then 16 else 8)) }
  else Except.ok { fs := fs, branch := Branch.cacheHit, emitted := 0, cardinality := none }

/-- The accumulation `std::accumulate(kmerveccounts.begin(), kmerveccounts.end(), size_t(0))`
of line 337: the running sum is converted back to `size_t` after every addition. -/
def accumulateCounts (kmerveccounts : List ℚ) : Nat :=
  kmerveccounts.foldl (fun acc c => (Rat.floor ((acc : ℚ) + c)).toNat) 0

/-- Mode A, the counter-based modes (lines 326-429): the files afterwards and the
cardinality stored for the row. `sigs` and `counts` are the sizes of
`ret.signatures_` and `ret.kmercounts_`. The keys of FULL_MMER_SET / FULL_MMER_COUNTDICT
go to `kmervec128` or `kmervec64` according to `use128`. The copies of lines 341 and
344 into the signature row are not guarded by the size of `ret.signatures_`, and the
copy of line 427 reads `ss` cells of `tmp`. -/
def modeAFiles (opts : Dashing2Options) (sizeofRegT sigs counts : Nat) (fs : FS)
    (destination : String) (inp : FileInput) : Except SketchError (FS × Option Nat) :=
  let ss := opts.sketchsize_
  let exact := opts.kmer_result_ = KmerSketchResultType.FULL_MMER_SET ∨
    opts.kmer_result_ = KmerSketchResultType.FULL_MMER_COUNTDICT
  let weighted := opts.sspace_ = SketchSpace.SPACE_MULTISET ∨
    opts.sspace_ = SketchSpace.SPACE_PSET
  let setsketch_with_counts : Bool :=
    (opts.kmer_result_ == KmerSketchResultType.FULL_SETSKETCH) &&
    (opts.save_kmercounts_ || decide (opts.count_threshold_ > 0))
  let kmervec128 : List Nat := if exact ∧ opts.use128 = true then inp.keys else []
  let kmervec64 : List Nat := if exact ∧ opts.use128 = false then inp.keys else []
  let kmerveccounts : List ℚ := if exact then inp.kmerveccounts else []
  let cardinality : Option Nat :=
    if opts.kmer_result_ = KmerSketchResultType.FULL_MMER_SET then
      some (if opts.use128 then kmervec128.length else kmervec64.length)
    else if opts.kmer_result_ = KmerSketchResultType.FULL_MMER_COUNTDICT then
      some (accumulateCounts kmerveccounts)
    else none
  -- lines 331-350: finalize according to the mode
  if ¬ exact ∧ ¬ weighted ∧ setsketch_with_counts = false then
    Except.error SketchError.unexpectedSpace
  else if ¬ exact ∧ weighted ∧ sigs = 0 ∧ ss ≠ 0 then
    Except.error SketchError.undefinedBehaviour
  else
  -- lines 352-362: bottom-k of the exact keys into the signature row
  let bk : Option (List Nat) :=
    if (kmervec64.length ≠ 0 ∨ kmervec128.length ≠ 0) ∧ sigs ≠ 0 then
      let kvcp := if kmerveccounts.isEmpty then none else some kmerveccounts
      if kmervec128.length ≠ 0 then
        bottomk (BKRegT_bits sizeofRegT) kmervec128 ss opts.count_threshold_ kvcp
      else bottomk (BKRegT_bits sizeofRegT) kmervec64 ss opts.count_threshold_ kvcp
    else some []
  match bk with
  | none => Except.error SketchError.undefinedBehaviour
  | some _ =>
    -- lines 363-391: the signatures file
    let nb : Nat :=
      if kmervec128.length ≠ 0 then kmervec128.length * 16
      else if kmervec64.length ≠ 0 then kmervec64.length * 8
      else if opts.sspace_ = SketchSpace.SPACE_MULTISET then ss * sizeofRegT
      else if opts.sspace_ = SketchSpace.SPACE_PSET then ss * sizeofRegT
      else if opts.kmer_result_ = KmerSketchResultType.ONE_PERM ∨
          opts.kmer_result_ = KmerSketchResultType.FULL_SETSKETCH then ss * sizeofRegT
      else 0
    let fs1 := fs.write destination nb
    -- lines 392-409: the kmer-ids file
    let wantIds : Bool :=
      (opts.save_kmers_ || opts.build_mmer_matrix_) &&
      !(opts.kmer_result_ == KmerSketchResultType.FULL_MMER_SET ||
        opts.kmer_result_ == KmerSketchResultType.FULL_MMER_SEQUENCE ||
        opts.kmer_result_ == KmerSketchResultType.FULL_MMER_COUNTDICT)
    if wantIds ∧ inp.idsNonNull = false then Except.error SketchError.nullIds
    else
      let fs2 := if wantIds then fs1.write (destkmerOf destination) (8 * ss) else fs1
      -- lines 410-429: the counts file
      if opts.save_kmercounts_ ∨
          opts.kmer_result_ = KmerSketchResultType.FULL_MMER_COUNTDICT then
        let tmpSize : Nat :=
          if opts.kmer_result_ = KmerSketchResultType.FULL_MMER_COUNTDICT ∨
              (opts.kmer_result_ = KmerSketchResultType.FULL_MMER_SET ∧
                opts.save_kmercounts_ = true)
          then kmerveccounts.length else ss
        if counts ≠ 0 ∧ tmpSize < ss then Except.error SketchError.undefinedBehaviour
        else
          Except.ok (fs2.write (destkmercountsOf destination) (tmpSize * 8), cardinality)
      else Except.ok (fs2, cardinality)

/-- Mode A as a file iteration: the enumerator is driven once over the path (line 327). -/
def modeA (opts : Dashing2Options) (sizeofRegT sigs counts : Nat) (fs : FS)
    (destination : String) (inp : FileInput) : Except SketchError FileOutcome :=
  match modeAFiles opts sizeofRegT sigs counts fs destination inp with
  | Except.error e => Except.error e
  | Except.ok (fs1, cardinality) =>
    Except.ok { fs := fs1, branch := Branch.modeA, emitted := inp.emissions.length,
                cardinality := cardinality }

/-- Mode B, FULL_MMER_SEQUENCE (lines 430-457): the buffer is filled from the stream and
`l * (1 + use128) * sizeof(uint64_t)` bytes of it go to the signatures file; reading
them from past the allocation is undefined. -/
def modeB (opts : Dashing2Options) (fs : FS) (destination : String) (inp : FileInput) :
    Except SketchError FileOutcome :=
  match fullMmerSequence opts inp.emissions with
  | none => Except.error SketchError.undefinedBehaviour
  | some buf =>
    let nb := buf.l * (1 + (if opts.use128 then 1 else 0)) * 8
    if nb ≤ buf.bytes then
      Except.ok { fs := fs.write destination nb, branch := Branch.modeB,
                  emitted := inp.emissions.length, cardinality := some buf.l }
    else Except.error SketchError.undefinedBehaviour

/-- Mode C, register-only sketches (lines 458-494). The pools `opss` and `fss` are filled
at lines 148-154 only in SET space, for ONE_PERM and FULL_SETSKETCH respectively. -/
def modeC (opts : Dashing2Options) (sizeofRegT : Nat) (fs : FS) (destination : String)
    (inp : FileInput) : Except SketchError FileOutcome :=
  let opssEmpty : Bool :=
    !(opts.sspace_ == SketchSpace.SPACE_SET &&
      opts.kmer_result_ == KmerSketchResultType.ONE_PERM)
  let fssEmpty : Bool :=
    !(opts.sspace_ == SketchSpace.SPACE_SET &&
      opts.kmer_result_ == KmerSketchResultType.FULL_SETSKETCH)
  if opssEmpty ∧ fssEmpty then Except.error SketchError.emptyPools
  else
    Except.ok { fs := fs.write destination (opts.sketchsize_ * sizeofRegT),
                branch := Branch.modeC, emitted := inp.emissions.length,
                cardinality := none }

/-- One iteration of the loop over paths (lines 254-497) for `path`, with `npaths` paths in
the run. -/
def fileIteration (R : Renderers) (opts : Dashing2Options) (sizeofRegT npaths : Nat)
    (fs : FS) (path : String) (inp : FileInput) : Except SketchError FileOutcome :=
  let ss := opts.sketchsize_
  let destination := makedest R opts path
  let sigs := if opts.build_sig_matrix_ then ss * npaths else 0
  let kmers := if opts.build_mmer_matrix_ || opts.save_kmers_ then ss * npaths else 0
  let counts := if opts.build_count_matrix_ then ss * npaths else 0
  if cacheHit opts fs destination then cacheBranch opts fs path destination kmers counts
  else
    let setsketch_with_counts : Bool :=
      (opts.kmer_result_ == KmerSketchResultType.FULL_SETSKETCH) &&
      (opts.save_kmercounts_ || decide (opts.count_threshold_ > 0))
    if (opts.sspace_ == SketchSpace.SPACE_MULTISET || opts.sspace_ == SketchSpace.SPACE_PSET ||
        opts.kmer_result_ == KmerSketchResultType.FULL_MMER_SET ||
        opts.kmer_result_ == KmerSketchResultType.FULL_MMER_COUNTDICT) ||
        setsketch_with_counts then
      modeA opts sizeofRegT sigs counts fs destination inp
    else if opts.kmer_result_ = KmerSketchResultType.FULL_MMER_SEQUENCE then
      modeB opts fs destination inp
    else if opts.kmer_result_ = KmerSketchResultType.ONE_PERM ∨
        opts.kmer_result_ = KmerSketchResultType.FULL_SETSKETCH then
      modeC opts sizeofRegT fs destination inp
    else Except.error SketchError.unexpectedResultType

/-- The checks and the option update `fastx2sketch` performs before its loop over paths
when `parse_by_seq_` is off (lines 122, 159-165, 196-201): an empty path set and
EDIT_DISTANCE are rejected, and MULTISET / PSET force `save_kmercounts_`. -/
def prepareOpts (opts : Dashing2Options) (paths : List String) :
    Except SketchError Dashing2Options :=
  if paths.isEmpty then Except.error SketchError.emptyPaths
  else if opts.sspace_ = SketchSpace.SPACE_EDIT_DISTANCE then
    Except.error SketchError.editDistanceNeedsParseBySeq
  else if opts.sspace_ = SketchSpace.SPACE_MULTISET ∨ opts.sspace_ = SketchSpace.SPACE_PSET then
    Except.ok { opts with save_kmercounts_ := true }
  else Except.ok opts

/-- The run of `fastx2sketch` on a single path with `parse_by_seq_` off: the checks, then
the one file iteration. -/
def sketchOnePath (R : Renderers) (opts : Dashing2Options) (sizeofRegT : Nat) (fs : FS)
    (path : String) (inp : FileInput) : Except SketchError FileOutcome :=
  match prepareOpts opts [path] with
  | Except.error e => Except.error e
  | Except.ok opts1 => fileIteration R opts1 sizeofRegT 1 fs path inp

/-- Specification, cache round-trip (section 8, invariant 3) for one path: when a run on
`fs` computes the path and finishes without error, a second run on the files it leaves
takes the cache branch and emits no m-mer. -/
def cacheRoundTrip (R : Renderers) (opts : Dashing2Options) (sizeofRegT : Nat) (fs : FS)
    (path : String) (inp : FileInput) : Prop :=
  ∀ r1, sketchOnePath R opts sizeofRegT fs path inp = Except.ok r1 →
    r1.branch ≠ Branch.cacheHit →
    ∃ r2, sketchOnePath R opts sizeofRegT r1.fs path inp = Except.ok r2 ∧
      r2.branch = Branch.cacheHit ∧ r2.emitted = 0

/-- A sample of what the collaborators deliver for one file: four emitted m-mers, three
distinct keys with their counts. -/
def sampleInput : FileInput where
  emissions := [5, 9, 11, 5]
  keys := [5, 9, 11]
  kmerveccounts := [2, 1, 1]
  idsNonNull := true

/-! ## By-sequence merger (`SketchingResult::merge`, fastxsketch.cpp lines 501-567) -/

/-- The fields of `SketchingResult` that `merge` reads and writes. Registers, counts and
cardinalities are only copied, never computed with. -/
structure SketchingResult where
  names_ : List String
  nperfile_ : List Nat
  cardinalities_ : List ℚ
  sequences_ : List String
  signatures_ : List ℚ
  kmers_ : List Nat
  kmercounts_ : List ℚ
  deriving DecidableEq

/-- A default-constructed `SketchingResult`. -/
def SketchingResult.empty : SketchingResult where
  names_ := []
  nperfile_ := []
  cardinalities_ := []
  sequences_ := []
  signatures_ := []
  kmers_ := []
  kmercounts_ := []

/-- The array `offsets` (and `sig_offsets`) of lines 513-524: entry 0 is `acc`, entry `i + 1`
adds the size of sub-result `i`. -/
def offsetsFrom (acc : Nat) : List Nat → List Nat
  | [] => [acc]
  | n :: rest => acc :: offsetsFrom (acc + n) rest

/-- The call `std::copy(src.begin(), src.end(), &dst[ofs])` into a vector already sized:
the cells `ofs, ..., ofs + src.size() - 1` of `dst` are overwritten. An empty range
writes nothing; a range that runs past the end of `dst` is undefined. -/
def copyInto {α : Type} (dst : List α) (ofs : Nat) (src : List α) : Option (List α) :=
  if src.length = 0 then some dst
  else if ofs + src.length ≤ dst.length then
    some (dst.take ofs ++ src ++ dst.drop (ofs + src.length))
  else none

/-- The file name used for sub-result `i` (lines 550-551): `names[i]` up to its first
space when `names` has an entry `i`, the empty string otherwise. -/
def fnameAt (names : List String) (i : Nat) : String :=
  match names.get? i with
  | some nm => truncAtSpace nm
  | none => ""

/-- One iteration of the copy loop (lines 547-564) for sub-result `src` at index `i`. -/
def mergeStep (names : List String) (offsets sig_offsets : List Nat)
    (seqsz regsz kmersz kmercountsz : Bool) (i : Nat) (src ret : SketchingResult) :
    Option SketchingResult :=
  let ofs := offsets.getD i 0
  let sofs := sig_offsets.getD i 0
  let fname := fnameAt names i
  (copyInto ret.names_ ofs (src.names_.map (fun x => x ++ ":" ++ fname))).bind fun n =>
  (copyInto ret.cardinalities_ ofs src.cardinalities_).bind fun c =>
  (if seqsz then copyInto ret.sequences_ ofs src.sequences_
   else some ret.sequences_).bind fun s =>
  (if regsz then copyInto ret.signatures_ sofs src.signatures_
   else some ret.signatures_).bind fun g =>
  (if kmersz then copyInto ret.kmers_ sofs src.kmers_ else some ret.kmers_).bind fun k =>
  (if kmercountsz then copyInto ret.kmercounts_ sofs src.kmercounts_
   else some ret.kmercounts_).bind fun kc =>
  some { names_ := n, nperfile_ := ret.nperfile_, cardinalities_ := c, sequences_ := s,
         signatures_ := g, kmers_ := k, kmercounts_ := kc }

/-- The copy loop of lines 546-565, for the sub-results from index `i` on. -/
def mergeLoop (names : List String) (offsets sig_offsets : List Nat)
    (seqsz regsz kmersz kmercountsz : Bool) :
    Nat → List SketchingResult → SketchingResult → Option SketchingResult
  | _, [], ret => some ret
  | i, src :: rest, ret =>
    match mergeStep names offsets sig_offsets seqsz regsz kmersz kmercountsz i src ret with
    | none => none
    | some ret1 =>
      mergeLoop names offsets sig_offsets seqsz regsz kmersz kmercountsz (i + 1) rest ret1

/-- The function `SketchingResult::merge(start, n, names)`, `start` being the list of the
`n` sub-results. It returns `none` where the source has undefined behaviour:
`names.front()` on an empty `names` for a sequence to rename (line 508), the division by
`start->names_.size()` when the first sub-result has no name (line 529), and a copy
that runs past the end of its target array (lines 556-564). -/
def merge (start : List SketchingResult) (names : List String) : Option SketchingResult :=
  match start with
  | [] => some SketchingResult.empty
  | [only] =>
    match names.head? with
    | none => if only.names_.length = 0 then some only else none
    | some front => some { only with names_ := only.names_.map (fun x => front ++ ":" ++ x) }
  | first :: second :: more =>
    let all := first :: second :: more
    let nperfile := all.map (fun r => r.names_.length)
    let total_seqs := nperfile.sum
    let total_sig_size := (all.map (fun r => r.signatures_.length)).sum
    let offsets := offsetsFrom 0 nperfile
    let sig_offsets := offsetsFrom 0 (all.map (fun r => r.signatures_.length))
    if first.names_.length = 0 then none
    else
      let sketchsz := first.signatures_.length / first.names_.length
      let ret : SketchingResult :=
        { names_ := List.replicate total_seqs "",
          nperfile_ := nperfile,
          cardinalities_ := List.replicate total_seqs 0,
          sequences_ := if all.any (fun r => r.sequences_.length ≠ 0)
                        then List.replicate total_seqs "" else [],
          signatures_ := if total_sig_size > 0 then List.replicate total_sig_size 0 else [],
          kmers_ := if first.kmers_.length ≠ 0
                    then List.replicate (total_seqs * sketchsz) 0 else [],
          kmercounts_ := if first.kmercounts_.length ≠ 0
                         then List.replicate total_sig_size 0 else [] }
      mergeLoop names offsets sig_offsets
        (decide (total_seqs ≠ 0)) (!first.signatures_.isEmpty) (!first.kmers_.isEmpty)
        (!first.kmercounts_.isEmpty) 0 all ret

/-- A range of `n` cells written at offset `ofs` fits an array of `len` cells: it is empty
or ends inside the array. -/
def fits (len ofs n : Nat) : Prop :=
  n = 0 ∨ ofs + n ≤ len

/-- Every copy of one iteration of the copy loop fits its target array in `ret`. -/
def stepFits (seqsz regsz kmersz kmercountsz : Bool) (ret src : SketchingResult)
    (ofs sofs : Nat) : Prop :=
  fits ret.names_.length ofs src.names_.length ∧
  fits ret.cardinalities_.length ofs src.cardinalities_.length ∧
  (seqsz = true → fits ret.sequences_.length ofs src.sequences_.length) ∧
  (regsz = true → fits ret.signatures_.length sofs src.signatures_.length) ∧
  (kmersz = true → fits ret.kmers_.length sofs src.kmers_.length) ∧
  (kmercountsz = true → fits ret.kmercounts_.length sofs src.kmercounts_.length)

/-- Two results have arrays of the same sizes. -/
def sameLengths (a b : SketchingResult) : Prop :=
  a.names_.length = b.names_.length ∧
  a.cardinalities_.length = b.cardinalities_.length ∧
  a.sequences_.length = b.sequences_.length ∧
  a.signatures_.length = b.signatures_.length ∧
  a.kmers_.length = b.kmers_.length ∧
  a.kmercounts_.length = b.kmercounts_.length

/-- A sub-result as the by-sequence sketcher is specified to deliver it for sketch size
`ss`: no more cardinalities and sequences than names, `ss` registers per name, and no
more kmers and kmer counts than registers. -/
def SketchingResult.Consistent (ss : Nat) (r : SketchingResult) : Prop :=
  r.cardinalities_.length ≤ r.names_.length ∧
  r.sequences_.length ≤ r.names_.length ∧
  r.signatures_.length = r.names_.length * ss ∧
  r.kmers_.length ≤ r.signatures_.length ∧
  r.kmercounts_.length ≤ r.signatures_.length

instance (ss : Nat) (r : SketchingResult) : Decidable (SketchingResult.Consistent ss r) := by
  unfold SketchingResult.Consistent
  infer_instance

/-- The specification's merged names: in file order, then in sequence order within a file,
each sequence name followed by `:` and the file name truncated at its first space. -/
def mergedNamesSpec : List SketchingResult → List String → List String
  | r :: rs, f :: fs =>
    r.names_.map (fun x => x ++ ":" ++ truncAtSpace f) ++ mergedNamesSpec rs fs
  | _, _ => []

/-- A sub-result holding sequence names and one cardinality per name, nothing else. -/
def subResult (names : List String) : SketchingResult where
  names_ := names
  nperfile_ := []
  cardinalities_ := names.map (fun _ => 1)
  sequences_ := []
  signatures_ := []
  kmers_ := []
  kmercounts_ := []

/-- The names written by the copy loop for the sub-results from index `i` on, one block per
sub-result. -/
def namesFrom (names : List String) : Nat → List SketchingResult → List String
  | _, [] => []
  | i, src :: rest =>
    src.names_.map (fun x => x ++ ":" ++ fnameAt names i) ++ namesFrom names (i + 1) rest

/-- A sub-result of the by-sequence sketcher with `ss = 2` registers per sequence: the
names, one cardinality per name, two registers per name, and no per-file counts of its
own. -/
def subResultWithSigs (names : List String) : SketchingResult where
  names_ := names
  nperfile_ := []
  cardinalities_ := names.map (fun _ => 1)
  sequences_ := []
  signatures_ := (names.map (fun _ => [(1 : ℚ), 2])).flatten
  kmers_ := []
  kmercounts_ := []

/-! ## The set-up of `fastx2sketch` (fastxsketch.cpp lines 121-201) -/

/-- The constructor arguments `make_save` passes (line 146): the sketch size, whether ids
are tracked and whether counts are tracked. -/
structure SaveArgs where
  ss : Nat
  save_ids : Bool
  save_counts : Bool
  deriving DecidableEq

/-- The lambda `make_save` (lines 143-147), read on the options as they are when it is
called. -/
def make_save (opts : Dashing2Options) : SaveArgs where
  ss := opts.sketchsize_
  save_ids := opts.save_kmers_ || opts.build_mmer_matrix_
  save_counts := opts.save_kmercounts_ || opts.build_count_matrix_

/-- The per-thread pools after lines 148-166, each given by the constructor arguments of
its members (`none` when the pool stays empty): `opss` and `pmhs` take the sketch size,
`fss` and `bmhs` the arguments of `make_save`, `omhs` the sketch size and `k`. -/
structure Pools where
  opss : Option Nat
  fss : Option SaveArgs
  bmhs : Option SaveArgs
  pmhs : Option Nat
  omhs : Option (Nat × Nat)
  deriving DecidableEq

/-- The pool construction of lines 148-166. -/
def buildPools (opts : Dashing2Options) : Except SketchError Pools :=
  let none5 : Pools := { opss := none, fss := none, bmhs := none, pmhs := none, omhs := none }
  match opts.sspace_ with
  | .SPACE_SET =>
    if opts.kmer_result_ = KmerSketchResultType.ONE_PERM then
      Except.ok { none5 with opss := some opts.sketchsize_ }
    else if opts.kmer_result_ = KmerSketchResultType.FULL_SETSKETCH then
      Except.ok { none5 with fss := some (make_save opts) }
    else Except.ok none5
  | .SPACE_MULTISET => Except.ok { none5 with bmhs := some (make_save opts) }
  | .SPACE_PSET => Except.ok { none5 with pmhs := some opts.sketchsize_ }
  | .SPACE_EDIT_DISTANCE =>
    if opts.parse_by_seq_ then Except.ok { none5 with omhs := some (opts.sketchsize_, opts.k_) }
    else Except.error SketchError.editDistanceNeedsParseBySeq

/-- The part of `fastx2sketch` before its loops (lines 121-201): the empty path set is
rejected, the pools are built, and with `parse_by_seq_` off the options are updated as
in `prepareOpts`. The result is the pools and the options the loop over paths reads. -/
def fastx2sketchSetup (opts : Dashing2Options) (paths : List String) :
    Except SketchError (Pools × Dashing2Options) :=
  if paths.isEmpty then Except.error SketchError.emptyPaths
  else
    match buildPools opts with
    | Except.error e => Except.error e
    | Except.ok pools =>
      if opts.parse_by_seq_ then Except.ok (pools, opts)
      else
        match prepareOpts opts paths with
        | Except.error e => Except.error e
        | Except.ok opts1 => Except.ok (pools, opts1)

/-- An operation on a named file. -/
inductive FileEvent
  | existsTest (p : String)
  | stat (p : String)
  | openRead (p : String)
  | openWrite (p : String)
  deriving DecidableEq

/-- The file operations of one iteration of the loop over paths that runs to its end
(lines 254-497): the existence tests of lines 264-270, then the loads of the cache
branch, or the read of the input and the writes of the artifacts. -/
def iterationEvents (R : Renderers) (opts : Dashing2Options) (npaths : Nat) (fs : FS)
    (path : String) : List FileEvent :=
  let ss := opts.sketchsize_
  let destination := makedest R opts path
  let destkmer := destkmerOf destination
  let destkmercounts := destkmercountsOf destination
  let sigs := if opts.build_sig_matrix_ then ss * npaths else 0
  let kmers := if opts.build_mmer_matrix_ || opts.save_kmers_ then ss * npaths else 0
  let counts := if opts.build_count_matrix_ then ss * npaths else 0
  let tests : List FileEvent :=
    [FileEvent.existsTest destkmer, FileEvent.existsTest destkmercounts]
    ++ (if opts.cache_sketches_ then [FileEvent.existsTest destination] else [])
  let exact : Bool :=
    opts.kmer_result_ == KmerSketchResultType.FULL_MMER_SET ||
    opts.kmer_result_ == KmerSketchResultType.FULL_MMER_SEQUENCE ||
    opts.kmer_result_ == KmerSketchResultType.FULL_MMER_COUNTDICT
  let setsketch_with_counts : Bool :=
    (opts.kmer_result_ == KmerSketchResultType.FULL_SETSKETCH) &&
    (opts.save_kmercounts_ || decide (opts.count_threshold_ > 0))
  let isModeA : Bool :=
    (opts.sspace_ == SketchSpace.SPACE_MULTISET || opts.sspace_ == SketchSpace.SPACE_PSET ||
      opts.kmer_result_ == KmerSketchResultType.FULL_MMER_SET ||
      opts.kmer_result_ == KmerSketchResultType.FULL_MMER_COUNTDICT) ||
    setsketch_with_counts
  if cacheHit opts fs destination then
    if opts.kmer_result_.belowFullMmerSet then
      tests
      ++ (if sigs ≠ 0 then [FileEvent.openRead destination] else [])
      ++ (if kmers ≠ 0 then [FileEvent.openRead destkmer] else [])
      ++ (if counts ≠ 0 then [FileEvent.openRead destkmercounts] else [])
    else if opts.kmer_result_ = KmerSketchResultType.FULL_MMER_COUNTDICT then
      tests ++ [FileEvent.existsTest destkmercounts, FileEvent.openRead destkmercounts]
    else if opts.kmer_result_ = KmerSketchResultType.FULL_MMER_SET then
      tests ++ [FileEvent.stat path]
    else tests
  else
    tests ++ [FileEvent.openRead path, FileEvent.openWrite destination]
    ++ (if isModeA && (opts.save_kmers_ || opts.build_mmer_matrix_) && !exact
        then [FileEvent.openWrite destkmer] else [])
    ++ (if isModeA && (opts.save_kmercounts_ ||
          opts.kmer_result_ == KmerSketchResultType.FULL_MMER_COUNTDICT)
        then [FileEvent.openWrite destkmercounts] else [])

/-- The loop over paths (lines 253-497), run in index order: the file operations so far
and the outcomes of the iterations, or the first failure. -/
def pathLoop (R : Renderers) (opts : Dashing2Options) (sizeofRegT npaths : Nat)
    (inputs : String → FileInput) :
    List String → FS → List FileEvent → List FileOutcome →
      List FileEvent × Except SketchError (List FileOutcome)
  | [], _, ev, acc => (ev, Except.ok acc.reverse)
  | path :: rest, fs, ev, acc =>
    let ev1 := ev ++ iterationEvents R opts npaths fs path
    match fileIteration R opts sizeofRegT npaths fs path (inputs path) with
    | Except.error e => (ev1, Except.error e)
    | Except.ok r => pathLoop R opts sizeofRegT npaths inputs rest r.fs ev1 (r :: acc)

/-- The function `fastx2sketch`, as the file operations it performs and its per-path
outcomes. With `parse_by_seq_` on the work is handed to the by-sequence sketcher, which
is declared elsewhere; `byseq` stands for what it contributes. -/
def fastx2sketch (R : Renderers) (opts : Dashing2Options) (sizeofRegT : Nat) (fs : FS)
    (paths : List String) (inputs : String → FileInput)
    (byseq : List FileEvent × Except SketchError (List FileOutcome)) :
    List FileEvent × Except SketchError (List FileOutcome) :=
  match fastx2sketchSetup opts paths with
  | Except.error e => ([], Except.error e)
  | Except.ok (_, opts1) =>
    if opts.parse_by_seq_ then byseq
    else pathLoop R opts1 sizeofRegT paths.length inputs paths fs [] []

/-! ## Writes into the result matrices (fastxsketch.cpp lines 244-252 and 273-494) -/

/-- The three result matrices. -/
inductive Matrix
  | signatures
  | kmers
  | kmercounts
  deriving DecidableEq

/-- Whether a matrix is pre-sized to `ss * paths.size()` at lines 244-252. -/
def presized (opts : Dashing2Options) : Matrix → Bool
  | .signatures => opts.build_sig_matrix_
  | .kmers => opts.build_mmer_matrix_ || opts.save_kmers_
  | .kmercounts => opts.build_count_matrix_

/-- The size of a matrix after lines 244-252. -/
def matrixSize (opts : Dashing2Options) (npaths : Nat) (m : Matrix) : Nat :=
  if presized opts m then opts.sketchsize_ * npaths else 0

/-- A write of `len` cells into a matrix, starting at cell `start`. -/
structure RowWrite where
  matrix : Matrix
  start : Nat
  len : Nat
  deriving DecidableEq

/-- The writes of Mode A for the file at index `i` (lines 338-428), in source order: the
copies of lines 341 and 344, the bottom-k copy of line 360, the copy of line 388 and
the copies of lines 407 and 427. -/
def modeARowWrites (opts : Dashing2Options) (npaths i : Nat) (inp : FileInput) :
    List RowWrite :=
  let ss := opts.sketchsize_
  let exact : Bool :=
    opts.kmer_result_ == KmerSketchResultType.FULL_MMER_SET ||
    opts.kmer_result_ == KmerSketchResultType.FULL_MMER_COUNTDICT
  let keysEmpty : Bool := !exact || inp.keys.isEmpty
  let weighted : Bool :=
    opts.sspace_ == SketchSpace.SPACE_MULTISET || opts.sspace_ == SketchSpace.SPACE_PSET
  let srcptr : Bool :=
    keysEmpty && (weighted ||
      opts.kmer_result_ == KmerSketchResultType.ONE_PERM ||
      opts.kmer_result_ == KmerSketchResultType.FULL_SETSKETCH)
  let wantIds : Bool :=
    (opts.save_kmers_ || opts.build_mmer_matrix_) &&
    !(exact || opts.kmer_result_ == KmerSketchResultType.FULL_MMER_SEQUENCE)
  let row (m : Matrix) : RowWrite := { matrix := m, start := i * ss, len := ss }
  (if !exact && weighted then [row Matrix.signatures] else [])
  ++ (if !keysEmpty && decide (matrixSize opts npaths Matrix.signatures ≠ 0)
      then [row Matrix.signatures] else [])
  ++ (if srcptr && decide (matrixSize opts npaths Matrix.signatures ≠ 0)
      then [row Matrix.signatures] else [])
  ++ (if wantIds && decide (matrixSize opts npaths Matrix.kmers ≠ 0)
      then [row Matrix.kmers] else [])
  ++ (if (opts.save_kmercounts_ ||
          opts.kmer_result_ == KmerSketchResultType.FULL_MMER_COUNTDICT) &&
        decide (matrixSize opts npaths Matrix.kmercounts ≠ 0)
      then [row Matrix.kmercounts] else [])

/-- The writes of Mode C for the file at index `i` (lines 490-494). -/
def modeCRowWrites (opts : Dashing2Options) (npaths i : Nat) : List RowWrite :=
  let ss := opts.sketchsize_
  let row (m : Matrix) : RowWrite := { matrix := m, start := i * ss, len := ss }
  (if decide (matrixSize opts npaths Matrix.signatures ≠ 0) then [row Matrix.signatures]
   else [])
  ++ (if opts.build_mmer_matrix_ && decide (matrixSize opts npaths Matrix.kmers ≠ 0)
      then [row Matrix.kmers] else [])
  ++ (if opts.build_count_matrix_ && decide (matrixSize opts npaths Matrix.kmercounts ≠ 0)
      then [row Matrix.kmercounts] else [])

/-- The writes of the cache branch for the file at index `i` (lines 273-281): `load_copy`
reads the whole file into the row, `sizeofRegT`, 8 and 8 bytes per cell. -/
def cacheRowWrites (opts : Dashing2Options) (sizeofRegT npaths i : Nat) (fs : FS)
    (destination : String) : List RowWrite :=
  let ss := opts.sketchsize_
  let cells (p : String) (width : Nat) : Nat := ((fs.filesize p).getD 0 + width - 1) / width
  if opts.kmer_result_.belowFullMmerSet then
    (if decide (matrixSize opts npaths Matrix.signatures ≠ 0)
     then [{ matrix := Matrix.signatures, start := ss * i,
             len := cells destination sizeofRegT }] else [])
    ++ (if decide (matrixSize opts npaths Matrix.kmers ≠ 0)
        then [{ matrix := Matrix.kmers, start := ss * i,
                len := cells (destkmerOf destination) 8 }] else [])
    ++ (if decide (matrixSize opts npaths Matrix.kmercounts ≠ 0)
        then [{ matrix := Matrix.kmercounts, start := ss * i,
                len := cells (destkmercountsOf destination) 8 }] else [])
  else []

/-- The writes into the result matrices of the iteration for the file at index `i`,
following the dispatch of `fileIteration`. -/
def rowWrites (R : Renderers) (opts : Dashing2Options) (sizeofRegT npaths i : Nat) (fs : FS)
    (path : String) (inp : FileInput) : List RowWrite :=
  let destination := makedest R opts path
  if cacheHit opts fs destination then cacheRowWrites opts sizeofRegT npaths i fs destination
  else
    let setsketch_with_counts : Bool :=
      (opts.kmer_result_ == KmerSketchResultType.FULL_SETSKETCH) &&
      (opts.save_kmercounts_ || decide (opts.count_threshold_ > 0))
    if (opts.sspace_ == SketchSpace.SPACE_MULTISET || opts.sspace_ == SketchSpace.SPACE_PSET ||
        opts.kmer_result_ == KmerSketchResultType.FULL_MMER_SET ||
        opts.kmer_result_ == KmerSketchResultType.FULL_MMER_COUNTDICT) ||
        setsketch_with_counts then
      modeARowWrites opts npaths i inp
    else if opts.kmer_result_ = KmerSketchResultType.FULL_MMER_SEQUENCE then []
    else if opts.kmer_result_ = KmerSketchResultType.ONE_PERM ∨
        opts.kmer_result_ = KmerSketchResultType.FULL_SETSKETCH then
      modeCRowWrites opts npaths i
    else []

/-- Specification, section 5: a write of the iteration for file `i` goes to a pre-sized
matrix and stays inside row `i`, the cells `[i * ss, (i + 1) * ss)`. -/
def RowWrite.inRow (opts : Dashing2Options) (i : Nat) (w : RowWrite) : Prop :=
  presized opts w.matrix = true ∧
  i * opts.sketchsize_ ≤ w.start ∧
  w.start + w.len ≤ (i + 1) * opts.sketchsize_

/-! ## `sketch_core` for BED and BIGWIG input (sketch_core.cpp lines 25-50 and 114-123) -/

/-- The pairs `{nbytes_from_line(paths[i]), i}` of line 119, from index `i` on. -/
def sizePairsFrom (nbytes : String → Nat) : Nat → List String → List (Nat × Nat)
  | _, [] => []
  | i, p :: rest => (nbytes p, i) :: sizePairsFrom nbytes (i + 1) rest

/-- The function `get_filesizes`: the pairs sorted with `std::greater<>`, that is in
decreasing lexicographic order. The sizes of the files, read through helpers declared
elsewhere, are the parameter `nbytes`. -/
def get_filesizes (nbytes : String → Nat) (paths : List String) : List (Nat × Nat) :=
  List.insertionSort (fun a b : Nat × Nat => b.1 < a.1 ∨ (b.1 = a.1 ∧ b.2 ≤ a.2))
    (sizePairsFrom nbytes 0 paths)

/-- One iteration of the loop of lines 30-49 for index `i`; `sketchFile` stands for
`bed2sketch` or `bw2sketch` and returns the registers and the cardinality of a file. The
copy of line 48 is undefined when the registers run past the end of the matrix. -/
def bedStep (paths : List String) (filesizes : List (Nat × Nat))
    (sketchFile : String → List ℚ × ℚ) (ss : Nat) (result : Option SketchingResult)
    (i : Nat) : Option SketchingResult :=
  match result with
  | none => none
  | some result =>
    let myind := if filesizes.length ≠ 0 then (filesizes.getD i (0, 0)).2 else i
    let p := paths.getD myind ""
    let sc := sketchFile p
    match copyInto result.signatures_ (myind * ss) sc.1 with
    | none => none
    | some sigs =>
      some { result with
             names_ := result.names_.set i p,
             cardinalities_ := result.cardinalities_.set myind sc.2,
             signatures_ := sigs }

/-- The BED / BIGWIG branch of `sketch_core` (lines 25-50): the three arrays are sized,
then filled by the loop over `i`. -/
def sketch_core_bed (ss : Nat) (nbytes : String → Nat) (sketchFile : String → List ℚ × ℚ)
    (paths : List String) : Option SketchingResult :=
  let filesizes := get_filesizes nbytes paths
  let npaths := paths.length
  let result : SketchingResult :=
    { SketchingResult.empty with
      signatures_ := List.replicate (npaths * ss) 0,
      names_ := List.replicate npaths "",
      cardinalities_ := List.replicate npaths 0 }
  (List.range npaths).foldl (bedStep paths filesizes sketchFile ss) (some result)

/-- Sample sizes: `big.bed` has two bytes, every other file one. -/
def sampleNbytes (p : String) : Nat :=
  if p = "big.bed" then 2 else 1

/-- Sample sketches with one register: `big.bed` gives register 20 and cardinality 2,
every other file register 10 and cardinality 1. -/
def sampleSketchFile (p : String) : List ℚ × ℚ :=
  if p = "big.bed" then ([20], 2) else ([10], 1)

open List

theorem take_orderedInsert_take (x : Nat) (k : Nat) (S : List Nat) :
    (orderedInsert (fun a b => a ≤ b) x S).take k
      = (orderedInsert (fun a b => a ≤ b) x (S.take k)).take k := by
  induction S generalizing k with
  | nil => simp
  | cons a S ih =>
    cases k with
    | zero => simp
    | succ k =>
      by_cases h : x ≤ a
      · simp only [take_succ_cons, orderedInsert, h, if_true]
        cases k with
        | zero => simp
        | succ j => simp [take_take]
      · simp only [take_succ_cons, orderedInsert, h, if_false]
        rw [ih k]

theorem sort_append_singleton (A : List Nat) (x : Nat) :
    insertionSort (fun a b => a ≤ b) (A ++ [x])
      = orderedInsert (fun a b => a ≤ b) x (insertionSort (fun a b => a ≤ b) A) := by
  apply eq_of_perm_of_sorted (r := fun a b : Nat => a ≤ b)
  · refine (perm_insertionSort _ _).trans ?_
    refine Perm.trans ?_ (perm_orderedInsert _ _ _).symm
    refine perm_append_singleton _ _ |>.trans ?_
    exact Perm.cons _ (perm_insertionSort _ _).symm
  · exact sorted_insertionSort _ _
  · exact (sorted_insertionSort _ _).orderedInsert _ _

theorem sorted_reverse_of_ge (pq : List Nat) (hs : Sorted (fun a b => b ≤ a) pq) :
    Sorted (fun a b : Nat => a ≤ b) pq.reverse := by
  unfold Sorted; rw [pairwise_reverse]; exact hs

theorem reverse_push (pq : List Nat) (x : Nat) (hs : Sorted (fun a b => b ≤ a) pq) :
    (PQ.push pq x).reverse = orderedInsert (fun a b => a ≤ b) x pq.reverse := by
  apply eq_of_perm_of_sorted (r := fun a b : Nat => a ≤ b)
  · refine (reverse_perm _).trans ?_
    refine (perm_orderedInsert _ _ _).trans ?_
    refine Perm.trans ?_ (perm_orderedInsert _ _ _).symm
    exact Perm.cons _ (reverse_perm _).symm
  · exact sorted_reverse_of_ge _ (hs.orderedInsert _ _)
  · exact (sorted_reverse_of_ge _ hs).orderedInsert _ _

theorem admitKey_spec (k : Nat) (pq : List Nat) (x : Nat) (hk : 0 < k)
    (hs : Sorted (fun a b => b ≤ a) pq) (hlen : pq.length ≤ k) :
    ∃ pq1, admitKey k pq x = some pq1 ∧
      pq1.reverse = (orderedInsert (fun a b => a ≤ b) x pq.reverse).take k := by
  unfold admitKey
  by_cases hlt : pq.length < k
  · refine ⟨PQ.push pq x, by simp [hlt], ?_⟩
    rw [reverse_push pq x hs, take_of_length_le]
    rw [orderedInsert_length, length_reverse]; omega
  · have hlenk : pq.length = k := by omega
    cases pq with
    | nil => simp at hlenk; omega
    | cons t rest =>
      have hrest : Sorted (fun a b : Nat => b ≤ a) rest := hs.of_cons
      have htop : ∀ a ∈ rest, a ≤ t := fun a ha => rel_of_sorted_cons hs a ha
      have hrl : rest.length + 1 = k := by simpa using hlenk
      have hrevs : Sorted (fun a b : Nat => a ≤ b) rest.reverse := by
        unfold Sorted; rw [pairwise_reverse]; exact hrest
      by_cases hx : x < t
      · refine ⟨PQ.push rest x, by rw [if_neg hlt]; simp [PQ.top, PQ.pop, hx], ?_⟩
        rw [reverse_push rest x hrest]
        have hins : orderedInsert (fun a b => a ≤ b) x ((t :: rest).reverse)
            = orderedInsert (fun a b => a ≤ b) x rest.reverse ++ [t] := by
          apply eq_of_perm_of_sorted (r := fun a b : Nat => a ≤ b)
          · refine (perm_orderedInsert _ _ _).trans ?_
            rw [reverse_cons]
            refine Perm.trans ?_ (Perm.append_right _ (perm_orderedInsert _ _ _).symm)
            simp
          · refine Sorted.orderedInsert _ _ ?_
            unfold Sorted; rw [pairwise_reverse]; exact hs
          · unfold Sorted
            rw [pairwise_append]
            refine ⟨hrevs.orderedInsert _ _, pairwise_singleton _ _, ?_⟩
            intro a ha b hb
            rw [mem_singleton] at hb
            subst hb
            rw [mem_orderedInsert] at ha
            rcases ha with ha | ha
            · omega
            · exact htop a (mem_reverse.mp ha)
        rw [hins, take_left']
        rw [orderedInsert_length, length_reverse]; exact hrl
      · refine ⟨t :: rest, by rw [if_neg hlt]; simp [PQ.top, hx], ?_⟩
        have hins : orderedInsert (fun a b => a ≤ b) x ((t :: rest).reverse)
            = (t :: rest).reverse ++ [x] := by
          apply eq_of_perm_of_sorted (r := fun a b : Nat => a ≤ b)
          · refine (perm_orderedInsert _ _ _).trans ?_
            exact (perm_append_singleton _ _).symm
          · refine Sorted.orderedInsert _ _ ?_
            unfold Sorted; rw [pairwise_reverse]; exact hs
          · unfold Sorted
            rw [pairwise_append]
            refine ⟨by rw [pairwise_reverse]; exact hs, pairwise_singleton _ _, ?_⟩
            intro a ha b hb
            rw [mem_singleton] at hb
            subst hb
            rw [mem_reverse, mem_cons] at ha
            rcases ha with ha | ha
            · omega
            · have := htop a ha; omega
        rw [hins, take_left']
        rw [length_reverse]; exact hlenk

theorem heap_sorted_of_inv (k : Nat) (pq S : List Nat) (hS : Sorted (fun a b => a ≤ b) S)
    (hinv : pq.reverse = S.take k) :
    Sorted (fun a b => b ≤ a) pq ∧ pq.length ≤ k := by
  have hT : Sorted (fun a b : Nat => a ≤ b) (S.take k) := hS.sublist (take_sublist k S)
  constructor
  · have h := hT
    rw [← hinv] at h
    unfold Sorted at h
    rw [pairwise_reverse] at h
    exact h
  · have h := congrArg List.length hinv
    rw [length_reverse, length_take] at h
    omega

theorem bottomkScan_spec (bits k : Nat) (threshold : ℚ) (ptr : Option (List ℚ))
    (hk : 0 < k) :
    ∀ (src : List Nat) (pq : List Nat) (i : Nat) (A : List Nat),
      (∀ x ∈ src, x < 2 ^ bits) →
      (∀ j, j < src.length → (countAt ptr (i + j)).isSome = true) →
      pq.reverse = (insertionSort (fun a b => a ≤ b) A).take k →
      ∃ pq1, bottomkScan bits k threshold ptr pq i src = some pq1 ∧
        pq1.reverse
          = (insertionSort (fun a b => a ≤ b) (A ++ admittedFrom threshold ptr i src)).take k := by
  intro src
  induction src with
  | nil =>
    intro pq i A _ _ hinv
    exact ⟨pq, rfl, by simpa [admittedFrom] using hinv⟩
  | cons item rest ih =>
    intro pq i A hreg hc hinv
    have hreg1 : ∀ x ∈ rest, x < 2 ^ bits := fun x hx => hreg x (mem_cons_of_mem _ hx)
    have hc1 : ∀ j, j < rest.length → (countAt ptr (i + 1 + j)).isSome = true := by
      intro j hj
      have := hc (j + 1) (by simp; omega)
      rwa [show i + (j + 1) = i + 1 + j by omega] at this
    have hc0 : (countAt ptr i).isSome = true := by
      have := hc 0 (by simp)
      simpa using this
    obtain ⟨count, hcount⟩ := Option.isSome_iff_exists.mp hc0
    by_cases hadm : threshold < count
    · have hkey : item % 2 ^ bits = item := Nat.mod_eq_of_lt (hreg item (mem_cons_self _ _))
      obtain ⟨hs, hlen⟩ := heap_sorted_of_inv k pq _ (sorted_insertionSort _ A) hinv
      obtain ⟨pq1, hstep, hrev⟩ := admitKey_spec k pq item hk hs hlen
      have hinv1 : pq1.reverse = (insertionSort (fun a b => a ≤ b) (A ++ [item])).take k := by
        rw [hrev, hinv, ← take_orderedInsert_take, sort_append_singleton]
      obtain ⟨pq2, hscan, hfin⟩ := ih pq1 (i + 1) (A ++ [item]) hreg1 hc1 hinv1
      refine ⟨pq2, ?_, ?_⟩
      · simp only [bottomkScan, bottomkStep, hcount, hadm, if_true, hkey, hstep]
        exact hscan
      · simpa [admittedFrom, hcount, hadm] using hfin
    · obtain ⟨pq2, hscan, hfin⟩ := ih pq (i + 1) A hreg1 hc1 hinv
      refine ⟨pq2, ?_, ?_⟩
      · simp only [bottomkScan, bottomkStep, hcount, hadm, if_false]
        exact hscan
      · simpa [admittedFrom, hcount, hadm] using hfin

theorem bottomkFill_full (pq acc : List Nat) :
    bottomkFill pq.length pq acc = some (pq.reverse ++ acc) := by
  induction pq generalizing acc with
  | nil => simp [bottomkFill]
  | cons t rest ih =>
    simp only [length_cons, bottomkFill, PQ.top, PQ.pop, head?_cons]
    rw [ih]
    simp

theorem countAt_isSome (src : List Nat) (ptr : Option (List ℚ))
    (hptr : ∀ cs, ptr = some cs → src.length ≤ cs.length) :
    ∀ j, j < src.length → (countAt ptr (0 + j)).isSome = true := by
  intro j hj
  cases ptr with
  | none => simp [countAt]
  | some cs =>
    have := hptr cs rfl
    simp only [countAt, Nat.zero_add]
    rw [List.get?_eq_getElem?, Option.isSome_iff_exists]
    exact ⟨cs[j], getElem?_eq_getElem (by omega)⟩

/-- Claim C1, as the code has it. For an output length `k ≥ 1`, keys that fit the register
type, a count array (when given) at least as long as the keys, and at least `k` admitted
items, `bottomk` returns the `k` smallest admitted keys in ascending order, a repeated key
kept as often as it occurs; when the admitted keys are pairwise distinct this is the
specification's list of the `k` smallest distinct admitted keys. -/
theorem bottomk_smallest_admitted (bits : Nat) (src : List Nat) (k : Nat) (threshold : ℚ)
    (ptr : Option (List ℚ)) (hk : 0 < k) (hreg : ∀ x ∈ src, x < 2 ^ bits)
    (hptr : ∀ cs, ptr = some cs → src.length ≤ cs.length)
    (hadm : k ≤ (admitted src threshold ptr).length) :
    bottomk bits src k threshold ptr = some (bottomkMulti src k threshold ptr) ∧
    ((admitted src threshold ptr).Nodup →
      bottomkMulti src k threshold ptr = bottomkSpec src k threshold ptr) := by
  constructor
  · obtain ⟨pq, hscan, hrev⟩ :=
      bottomkScan_spec bits k threshold ptr hk src [] 0 [] hreg
        (countAt_isSome src ptr hptr) (by simp)
    have hlen : pq.length = k := by
      have h := congrArg List.length hrev
      rw [length_reverse, length_take, length_insertionSort, nil_append] at h
      have : (admittedFrom threshold ptr 0 src).length = (admitted src threshold ptr).length := rfl
      omega
    unfold bottomk
    rw [hscan]
    have hfill := bottomkFill_full pq []
    rw [hlen] at hfill
    simp only [hfill, append_nil, hrev, nil_append]
    rfl
  · intro hnd
    unfold bottomkMulti bottomkSpec
    rw [Nodup.dedup]
    exact (perm_insertionSort _ _).nodup_iff.mpr hnd

/-- Witness for `bottomk_smallest_admitted`: keys `[7, 3, 9, 12, 1]` with counts
`[3, 2, 1, 1, 1]`, threshold 1 and two output slots. -/
theorem bottomk_smallest_admitted_witness :
    bottomk 64 [7, 3, 9, 12, 1] 2 1 (some [3, 2, 1, 1, 1]) = some [3, 7] ∧
    bottomkSpec [7, 3, 9, 12, 1] 2 1 (some [3, 2, 1, 1, 1]) = [3, 7] := by
  have h := bottomk_smallest_admitted 64 [7, 3, 9, 12, 1] 2 1 (some [3, 2, 1, 1, 1])
    (by decide) (by decide) (by intro cs h; cases h; decide) (by decide)
  refine ⟨h.1.trans (by decide), by decide⟩

/-- Claim C1 as stated fails: on keys `[3, 3, 5]` without counts, threshold 0 and two output
slots, `bottomk` returns `[3, 3]`, whereas the two smallest distinct keys are `[3, 5]`. -/
theorem bottomk_keeps_duplicates :
    bottomk 64 [3, 3, 5] 2 0 none = some [3, 3] ∧
    bottomkSpec [3, 3, 5] 2 0 none = [3, 5] ∧
    bottomk 64 [3, 3, 5] 2 0 none ≠ some (bottomkSpec [3, 3, 5] 2 0 none) := by
  decide

/-! ## Destination namer -/

/-- The lambda `makedest` as one expression: the base name followed by the components. -/
theorem makedest_unfold (R : Renderers) (opts : Dashing2Options) (path : String) :
    makedest R opts path = appendAll (destBase opts path) (destComponents R opts) := by
  unfold makedest destBase destComponents appendAll
  by_cases hw : opts.w_ > opts.k_ <;> by_cases ht : opts.count_threshold_ > 0 <;>
    by_cases htrim : opts.trim_folder_paths_ = true <;>
    by_cases hpre : opts.outprefix_.length = 0 <;>
    cases hs : opts.sspace_ <;>
    simp [hw, ht, htrim, hpre, hs, String.append_assoc]

/-- Claim C5. For every path and configuration, `makedest` returns the base name followed,
in this order, by `.k`; `.w` only when `w > k`; `.count_threshold` only when it is
positive; the counting-type tag only when the space is neither SET nor EDIT_DISTANCE;
then the space tag, the rolling-hash tag and the configuration suffix, and nothing
else. -/
theorem makedest_components (R : Renderers) (opts : Dashing2Options) (path : String) :
    makedest R opts path = appendAll (destBase opts path) (destComponents R opts) ∧
    destComponents R opts =
      ["." ++ Nat.repr opts.k_]
      ++ (if opts.w_ > opts.k_ then ["." ++ Nat.repr opts.w_] else [])
      ++ (if opts.count_threshold_ > 0
          then ["." ++ R.doubleToString opts.count_threshold_] else [])
      ++ (if opts.sspace_ = SketchSpace.SPACE_SET ∨
            opts.sspace_ = SketchSpace.SPACE_EDIT_DISTANCE
          then [] else ["." ++ R.ctTag opts.ct])
      ++ ["." ++ R.sspaceTag opts.sspace_, "." ++ R.rhtTag opts.rht_, R.to_suffix opts] :=
  ⟨makedest_unfold R opts path, rfl⟩

/-- With `trim_folder_paths_` off, `makedest` reads nothing after the first space. -/
theorem makedest_truncates_without_trim (R : Renderers) (opts : Dashing2Options)
    (line : String) (htrim : opts.trim_folder_paths_ = false) :
    makedest R opts line = makedest R opts (truncAtSpace line) := by
  have hidem : truncAtSpace (truncAtSpace line) = truncAtSpace line := by
    unfold truncAtSpace
    congr 1
    exact List.takeWhile_idem
  rw [makedest_unfold, makedest_unfold]
  unfold destBase
  simp [htrim, hidem]

/-- Claim C6, at the failing input. With `trim_folder_paths_` on and the line
`d/x.fa e/y.fa`, `makedest` names the destination after `y.fa`, the basename of the whole
line, whereas the first token `d/x.fa` alone gives `x.fa`: the text after the first space
decides the destination. -/
theorem makedest_trim_reads_past_space :
    makedest sampleRenderers { sampleOpts with trim_folder_paths_ := true } "d/x.fa e/y.fa"
      = "y.fa.31.SET.DNA.opss" ∧
    makedest sampleRenderers { sampleOpts with trim_folder_paths_ := true }
        (truncAtSpace "d/x.fa e/y.fa")
      = "x.fa.31.SET.DNA.opss" ∧
    makedest sampleRenderers { sampleOpts with trim_folder_paths_ := true } "d/x.fa e/y.fa"
      ≠ makedest sampleRenderers { sampleOpts with trim_folder_paths_ := true }
          (truncAtSpace "d/x.fa e/y.fa") := by
  decide

/-! ## Artifact cache -/

theorem modeA_branch (opts : Dashing2Options) (sz sigs counts : Nat) (fs : FS) (d : String)
    (inp : FileInput) (r : FileOutcome)
    (h : modeA opts sz sigs counts fs d inp = Except.ok r) :
    r.branch = Branch.modeA ∧ r.emitted = inp.emissions.length := by
  unfold modeA at h
  split at h
  · cases h
  · cases h; exact ⟨rfl, rfl⟩

theorem modeB_branch (opts : Dashing2Options) (fs : FS) (d : String)
    (inp : FileInput) (r : FileOutcome) (h : modeB opts fs d inp = Except.ok r) :
    r.branch = Branch.modeB ∧ r.emitted = inp.emissions.length := by
  unfold modeB at h
  cases hf : fullMmerSequence opts inp.emissions with
  | none => rw [hf] at h; cases h
  | some buf =>
    rw [hf] at h
    simp only at h
    by_cases hfit : buf.l * (1 + (if opts.use128 then 1 else 0)) * 8 ≤ buf.bytes
    · rw [if_pos hfit] at h; cases h; exact ⟨rfl, rfl⟩
    · rw [if_neg hfit] at h; cases h

theorem modeC_branch (opts : Dashing2Options) (sz : Nat) (fs : FS) (d : String)
    (inp : FileInput) (r : FileOutcome) (h : modeC opts sz fs d inp = Except.ok r) :
    r.branch = Branch.modeC ∧ r.emitted = inp.emissions.length := by
  unfold modeC at h
  simp only at h
  split at h
  · cases h
  · cases h; exact ⟨rfl, rfl⟩

theorem fileIteration_miss (R : Renderers) (opts : Dashing2Options) (sz n : Nat) (fs : FS)
    (path : String) (inp : FileInput) (r : FileOutcome)
    (hmiss : cacheHit opts fs (makedest R opts path) = false)
    (h : fileIteration R opts sz n fs path inp = Except.ok r) :
    r.branch ≠ Branch.cacheHit ∧ r.emitted = inp.emissions.length := by
  unfold fileIteration at h
  simp only [hmiss, Bool.false_eq_true, if_false] at h
  split at h
  · obtain ⟨hb, he⟩ := modeA_branch _ _ _ _ _ _ _ _ h
    exact ⟨by rw [hb]; decide, he⟩
  · split at h
    · obtain ⟨hb, he⟩ := modeB_branch _ _ _ _ _ h
      exact ⟨by rw [hb]; decide, he⟩
    · split at h
      · obtain ⟨hb, he⟩ := modeC_branch _ _ _ _ _ _ h
        exact ⟨by rw [hb]; decide, he⟩
      · cases h

/-- Claim C3. The cache-hit condition holds exactly when `cache_sketches_` is on, the
destination exists, `save_kmers_` implies that the kmer-ids file exists, and
(`save_kmercounts_` or FULL_MMER_COUNTDICT) implies that the counts file exists; on a hit
the iteration is the cache branch; and with `save_kmers_` on and the kmer-ids file absent
it is a miss, so an iteration that finishes has computed the path and emitted its
m-mers. -/
theorem cacheHit_iff (R : Renderers) (opts : Dashing2Options) (sz n : Nat) (fs : FS)
    (path : String) (inp : FileInput) :
    (cacheHit opts fs (makedest R opts path) = true ↔
      (opts.cache_sketches_ = true ∧
       fs.isfile (makedest R opts path) = true ∧
       (opts.save_kmers_ = true → fs.isfile (destkmerOf (makedest R opts path)) = true) ∧
       ((opts.save_kmercounts_ = true ∨
          opts.kmer_result_ = KmerSketchResultType.FULL_MMER_COUNTDICT) →
         fs.isfile (destkmercountsOf (makedest R opts path)) = true))) ∧
    (cacheHit opts fs (makedest R opts path) = true →
      fileIteration R opts sz n fs path inp
        = cacheBranch opts fs path (makedest R opts path)
            (if opts.build_mmer_matrix_ || opts.save_kmers_ then opts.sketchsize_ * n else 0)
            (if opts.build_count_matrix_ then opts.sketchsize_ * n else 0)) ∧
    (opts.save_kmers_ = true → fs.isfile (destkmerOf (makedest R opts path)) = false →
      cacheHit opts fs (makedest R opts path) = false ∧
      ∀ r, fileIteration R opts sz n fs path inp = Except.ok r →
        r.branch ≠ Branch.cacheHit ∧ r.emitted = inp.emissions.length) := by
  refine ⟨?_, ?_, ?_⟩
  · unfold cacheHit
    cases opts.cache_sketches_ <;> cases opts.save_kmers_ <;> cases opts.save_kmercounts_ <;>
      cases opts.kmer_result_ <;>
      cases fs.isfile (makedest R opts path) <;>
      cases fs.isfile (destkmerOf (makedest R opts path)) <;>
      cases fs.isfile (destkmercountsOf (makedest R opts path)) <;> simp
  · intro hhit
    unfold fileIteration
    simp only [hhit, if_true]
  · intro hsave habsent
    have hmiss : cacheHit opts fs (makedest R opts path) = false := by
      unfold cacheHit
      simp [hsave, habsent]
    exact ⟨hmiss, fun r hr => fileIteration_miss R opts sz n fs path inp r hmiss hr⟩

/-- Witness for `cacheHit_iff`: the destination is present, `save_kmers_` is on and the
kmer-ids file is absent. -/
theorem cacheHit_iff_witness :
    cacheHit { sampleOpts with save_kmers_ := true } [("a.fa.31.SET.DNA.opss", 32)]
      (makedest sampleRenderers { sampleOpts with save_kmers_ := true } "a.fa") = false :=
  ((cacheHit_iff sampleRenderers { sampleOpts with save_kmers_ := true } 8 1
      [("a.fa.31.SET.DNA.opss", 32)] "a.fa" sampleInput).2.2 (by decide) (by decide)).1

/-- Claim C2, at the failing input. Configuration: SET space, ONE_PERM, `cache_sketches_`
and `save_kmers_` on; only the input `a.fa` exists. The first run misses, takes Mode C
and finishes having written the signatures file alone; on the files it leaves, the
second run misses again (the kmer-ids file the condition asks for was never written),
takes Mode C and emits all four m-mers: the round-trip property fails. -/
theorem cache_roundtrip_fails_with_save_kmers :
    sketchOnePath sampleRenderers { sampleOpts with save_kmers_ := true } 8
        [("a.fa", 100)] "a.fa" sampleInput
      = Except.ok { fs := [("a.fa.31.SET.DNA.opss", 32), ("a.fa", 100)],
                    branch := Branch.modeC, emitted := 4, cardinality := none } ∧
    sketchOnePath sampleRenderers { sampleOpts with save_kmers_ := true } 8
        [("a.fa.31.SET.DNA.opss", 32), ("a.fa", 100)] "a.fa" sampleInput
      = Except.ok { fs := [("a.fa.31.SET.DNA.opss", 32), ("a.fa", 100)],
                    branch := Branch.modeC, emitted := 4, cardinality := none } ∧
    ¬ cacheRoundTrip sampleRenderers { sampleOpts with save_kmers_ := true } 8
        [("a.fa", 100)] "a.fa" sampleInput := by
  have h1 : sketchOnePath sampleRenderers { sampleOpts with save_kmers_ := true } 8
        [("a.fa", 100)] "a.fa" sampleInput
      = Except.ok { fs := [("a.fa.31.SET.DNA.opss", 32), ("a.fa", 100)],
                    branch := Branch.modeC, emitted := 4, cardinality := none } := rfl
  have h2 : sketchOnePath sampleRenderers { sampleOpts with save_kmers_ := true } 8
        [("a.fa.31.SET.DNA.opss", 32), ("a.fa", 100)] "a.fa" sampleInput
      = Except.ok { fs := [("a.fa.31.SET.DNA.opss", 32), ("a.fa", 100)],
                    branch := Branch.modeC, emitted := 4, cardinality := none } := rfl
  refine ⟨h1, h2, ?_⟩
  intro hrt
  obtain ⟨r2, hr2, hb, _⟩ := hrt _ h1 (by decide)
  rw [h2] at hr2
  cases hr2
  exact absurd hb (by decide)

/-- Claim C4, at the failing input. Configuration: SET space, FULL_MMER_SET, 64-bit keys,
two registers, caching on; the input `a.fa` has 100 bytes. The first run stores the
three keys in a 24-byte signatures file and reports cardinality 3; the second run hits
the cache and reports 100 / 8 = 12, the size of the input file divided by the key
width, not 24 / 8 = 3. -/
theorem cached_cardinality_reads_input_size :
    sketchOnePath sampleRenderers
        { sampleOpts with kmer_result_ := KmerSketchResultType.FULL_MMER_SET, sketchsize_ := 2 }
        8 [("a.fa", 100)] "a.fa" sampleInput
      = Except.ok { fs := [("a.fa.31.SET.DNA.ss", 24), ("a.fa", 100)],
                    branch := Branch.modeA, emitted := 4, cardinality := some 3 } ∧
    sketchOnePath sampleRenderers
        { sampleOpts with kmer_result_ := KmerSketchResultType.FULL_MMER_SET, sketchsize_ := 2 }
        8 [("a.fa.31.SET.DNA.ss", 24), ("a.fa", 100)] "a.fa" sampleInput
      = Except.ok { fs := [("a.fa.31.SET.DNA.ss", 24), ("a.fa", 100)],
                    branch := Branch.cacheHit, emitted := 0, cardinality := some 12 } ∧
    FS.filesize [("a.fa.31.SET.DNA.ss", 24), ("a.fa", 100)] "a.fa.31.SET.DNA.ss" = some 24 ∧
    24 / 8 = 3 :=
  ⟨rfl, rfl, rfl, rfl⟩

/-! ## FULL_MMER_SEQUENCE -/

theorem collapseRuns_cons_cons (a b : Nat) (rest : List Nat) :
    collapseRuns (a :: b :: rest)
      = if a = b then collapseRuns (b :: rest) else a :: collapseRuns (b :: rest) := by
  simp [collapseRuns]

theorem collapseRuns_append_singleton (x : Nat) :
    ∀ L : List Nat, collapseRuns (L ++ [x])
      = if L.getLast? = some x then collapseRuns L else collapseRuns L ++ [x]
  | [] => by simp [collapseRuns]
  | [a] => by
    by_cases h : a = x
    · subst h; simp [collapseRuns]
    · simp [collapseRuns, h]
  | a :: b :: rest => by
    have ih := collapseRuns_append_singleton x (b :: rest)
    have hl : (a :: b :: rest).getLast? = (b :: rest).getLast? := by simp [getLast?_cons_cons]
    rw [hl]
    have e : (a :: b :: rest) ++ [x] = a :: b :: (rest ++ [x]) := rfl
    have e1 : (b :: rest) ++ [x] = b :: (rest ++ [x]) := rfl
    rw [e, collapseRuns_cons_cons, collapseRuns_cons_cons, ← e1, ih]
    by_cases hab : a = b <;> by_cases hx : (b :: rest).getLast? = some x <;> simp [hab, hx]

theorem collapseRuns_ne_nil : ∀ L : List Nat, L ≠ [] → collapseRuns L ≠ []
  | [], h => absurd rfl h
  | [a], _ => by simp [collapseRuns]
  | a :: b :: rest, _ => by
    rw [collapseRuns_cons_cons]
    by_cases hab : a = b
    · simp only [hab, if_true]
      exact collapseRuns_ne_nil (b :: rest) (by simp)
    · simp [hab]

theorem getLast?_collapseRuns : ∀ L : List Nat, (collapseRuns L).getLast? = L.getLast?
  | [] => by simp [collapseRuns]
  | [a] => by simp [collapseRuns]
  | a :: b :: rest => by
    have ih := getLast?_collapseRuns (b :: rest)
    rw [collapseRuns_cons_cons, getLast?_cons_cons]
    by_cases hab : a = b
    · simp only [hab, if_true]
      exact ih
    · simp only [hab, if_false]
      rw [← ih]
      cases hc : collapseRuns (b :: rest) with
      | nil => exact absurd hc (collapseRuns_ne_nil _ (by simp))
      | cons c cs => simp [getLast?_cons_cons]

theorem head?_collapseRuns : ∀ (b : Nat) (rest : List Nat),
    (collapseRuns (b :: rest)).head? = some b
  | b, [] => by simp [collapseRuns]
  | b, c :: rest => by
    rw [collapseRuns_cons_cons]
    by_cases hbc : b = c
    · subst hbc
      simp only [if_true]
      exact head?_collapseRuns b rest
    · simp [hbc]

theorem chain_collapseRuns : ∀ L : List Nat, Chain' (fun a b => a ≠ b) (collapseRuns L)
  | [] => by simp [collapseRuns]
  | [a] => by simp [collapseRuns]
  | a :: b :: rest => by
    have ih := chain_collapseRuns (b :: rest)
    rw [collapseRuns_cons_cons]
    by_cases hab : a = b
    · simp only [hab, if_true]
      exact ih
    · simp only [hab, if_false]
      rw [chain'_cons']
      refine ⟨?_, ih⟩
      intro y hy
      rw [head?_collapseRuns] at hy
      cases hy
      exact hab

theorem mem_collapseRuns : ∀ (L : List Nat) (x : Nat), x ∈ collapseRuns L → x ∈ L
  | [], x, h => by simp [collapseRuns] at h
  | [a], x, h => by simpa [collapseRuns] using h
  | a :: b :: rest, x, h => by
    rw [collapseRuns_cons_cons] at h
    by_cases hab : a = b
    · simp only [hab, if_true] at h
      exact mem_cons_of_mem _ (mem_collapseRuns (b :: rest) x h)
    · simp only [hab, if_false, mem_cons] at h
      rcases h with h | h
      · exact h ▸ mem_cons_self _ _
      · exact mem_cons_of_mem _ (mem_collapseRuns (b :: rest) x (by simpa using h))

/-- The store of lines 450-451 into a buffer with room for one more element. -/
theorem seqStore_spec (dt : Nat) (compress : Bool) (b : SeqBuf) (x : Nat)
    (hl : b.l = b.ptr.length) (hlt : b.l < b.m) (hb : b.bytes = b.m * dt) :
    ∃ b2, seqStore dt compress b x = some b2 ∧
      b2.ptr = (if compress = true ∧ b.ptr.getLast? = some x then b.ptr else b.ptr ++ [x]) ∧
      b2.l = b2.ptr.length ∧ b2.l ≤ b2.m ∧ b2.m = b.m ∧ b2.bytes = b.bytes := by
  have hget : b.ptr.get? (b.ptr.length - 1) = b.ptr.getLast? := by
    rw [getLast?_eq_getElem?, get?_eq_getElem?]
  have hfit : (b.l + 1) * dt ≤ b.bytes := by
    rw [hb]
    exact Nat.mul_le_mul_right dt hlt
  unfold seqStore
  by_cases hc : compress = true ∧ b.ptr.getLast? = some x
  · have hpos : b.ptr.length > 0 := by
      cases hp : b.ptr with
      | nil => rw [hp] at hc; simp at hc
      | cons c cs => simp
    refine ⟨b, ?_, ?_, hl, Nat.le_of_lt hlt, rfl, rfl⟩
    · rw [hl, hget]
      simp [hc.1, hc.2, hpos]
    · rw [if_pos hc]
  · refine ⟨{ ptr := b.ptr.take b.l ++ [x], m := b.m, l := b.l + 1, bytes := b.bytes },
      ?_, ?_, ?_, hlt, rfl, rfl⟩
    · have hcond : (compress && decide (b.l > 0) && (b.ptr.get? (b.l - 1) == some x))
          = false := by
        rw [hl, hget]
        by_cases h1 : compress = true
        · have h2 : ¬ b.ptr.getLast? = some x := fun h => hc ⟨h1, h⟩
          simp [h2]
        · simp [h1]
      rw [hcond]
      simp [hfit]
    · rw [if_neg hc, hl, take_length]
    · simp [hl]

/-- The handler on a buffer whose allocation holds exactly its `m` elements. -/
theorem seqPush_spec (dt : Nat) (compress : Bool) (b : SeqBuf) (x : Nat)
    (hl : b.l = b.ptr.length) (hm : b.l ≤ b.m) (hpos : 0 < b.m) (hb : b.bytes = b.m * dt) :
    ∃ b2, seqPush dt compress b x = some b2 ∧
      b2.ptr = (if compress = true ∧ b.ptr.getLast? = some x then b.ptr else b.ptr ++ [x]) ∧
      b2.l = b2.ptr.length ∧ b2.l ≤ b2.m ∧ 0 < b2.m ∧ b2.bytes = b2.m * dt := by
  unfold seqPush
  by_cases hfull : b.l = b.m
  · have htake : take b.m b.ptr = b.ptr := by
      rw [← hfull, hl]; exact take_length _
    have hshift : b.m <<< 1 = b.m * 2 := by
      rw [Nat.shiftLeft_eq, Nat.pow_one]
    have hg : seqGrow dt b
        = some { ptr := b.ptr, m := b.m <<< 1, l := b.m, bytes := (b.m <<< 1) * dt } := by
      unfold seqGrow
      rw [if_pos hfull, if_pos (by rw [hb]), htake, hfull]
    rw [hg]
    obtain ⟨b2, h1, h2, h3, h4, h5, h6⟩ :=
      seqStore_spec dt compress
        { ptr := b.ptr, m := b.m <<< 1, l := b.m, bytes := (b.m <<< 1) * dt } x
        (by show b.m = b.ptr.length; rw [← hfull]; exact hl)
        (by show b.m < b.m <<< 1; rw [hshift]; omega) rfl
    refine ⟨b2, h1, h2, h3, h4, ?_, ?_⟩
    · rw [h5]; show 0 < b.m <<< 1; rw [hshift]; omega
    · rw [h6, h5]
  · have hg : seqGrow dt b = some b := by
      unfold seqGrow
      rw [if_neg hfull]
    rw [hg]
    obtain ⟨b2, h1, h2, h3, h4, h5, h6⟩ :=
      seqStore_spec dt compress b x hl (by omega) hb
    refine ⟨b2, h1, h2, h3, h4, ?_, ?_⟩
    · rw [h5]; exact hpos
    · rw [h6, h5, hb]

theorem sequenceSpec_append_singleton (fs_ : Option (Nat → Bool)) (compress : Bool)
    (P : List Nat) (x : Nat) :
    sequenceSpec fs_ compress (P ++ [x])
      = if passesFilter fs_ x = true then
          (if compress = true ∧ (sequenceSpec fs_ compress P).getLast? = some x
            then sequenceSpec fs_ compress P else sequenceSpec fs_ compress P ++ [x])
        else sequenceSpec fs_ compress P := by
  have key : ∀ kept : List Nat,
      (if compress = true then collapseRuns (kept ++ [x]) else kept ++ [x])
        = if compress = true ∧
              (if compress = true then collapseRuns kept else kept).getLast? = some x
          then (if compress = true then collapseRuns kept else kept)
          else (if compress = true then collapseRuns kept else kept) ++ [x] := by
    intro kept
    cases compress with
    | false => simp
    | true =>
      simp only [if_true, true_and]
      rw [collapseRuns_append_singleton, getLast?_collapseRuns]
  cases fs_ with
  | none =>
    simp only [sequenceSpec, passesFilter, if_true]
    exact key P
  | some in_set =>
    by_cases hin : in_set x = true
    · simp [sequenceSpec, passesFilter, hin, filter_append]
    · have hin' : in_set x = false := by simpa using hin
      simp only [sequenceSpec, passesFilter, hin', Bool.not_false, if_true, filter_append]
      have hf : filter (fun x => decide (in_set x = false)) [x] = [x] := by simp [hin']
      rw [hf]
      exact key _

/-- The fold of the handler over a stream, from a buffer whose allocation holds exactly
its `m` elements and that stores the specified output of the stream `P` read so far. -/
theorem seqRun_spec (fs_ : Option (Nat → Bool)) (dt : Nat) (compress : Bool) :
    ∀ (E : List Nat) (b : SeqBuf) (P : List Nat),
      b.l = b.ptr.length → b.l ≤ b.m → 0 < b.m → b.bytes = b.m * dt →
      b.ptr = sequenceSpec fs_ compress P →
      ∃ b2, seqRun fs_ dt compress E b = some b2 ∧
        b2.ptr = sequenceSpec fs_ compress (P ++ E) ∧
        b2.l = b2.ptr.length ∧ b2.l ≤ b2.m ∧ b2.bytes = b2.m * dt
  | [], b, P, hl, hm, _, hb, hp => ⟨b, rfl, by simpa using hp, hl, hm, hb⟩
  | x :: rest, b, P, hl, hm, hpos, hb, hp => by
    have hPx : P ++ x :: rest = (P ++ [x]) ++ rest := by simp
    have hs := sequenceSpec_append_singleton fs_ compress P x
    by_cases hpass : passesFilter fs_ x = true
    · obtain ⟨b1, h1, h2, h3, h4, h5, h6⟩ := seqPush_spec dt compress b x hl hm hpos hb
      have hp1 : b1.ptr = sequenceSpec fs_ compress (P ++ [x]) := by
        rw [hs, if_pos hpass, h2, hp]
      obtain ⟨b2, g1, g2, g3, g4, g5⟩ :=
        seqRun_spec fs_ dt compress rest b1 (P ++ [x]) h3 h4 h5 h6 hp1
      refine ⟨b2, ?_, by rw [hPx]; exact g2, g3, g4, g5⟩
      simp only [seqRun, hpass, if_true, h1]
      exact g1
    · have hp1 : b.ptr = sequenceSpec fs_ compress (P ++ [x]) := by
        rw [hs, if_neg hpass]; exact hp
      obtain ⟨b2, g1, g2, g3, g4, g5⟩ :=
        seqRun_spec fs_ dt compress rest b (P ++ [x]) hl hm hpos hb hp1
      refine ⟨b2, ?_, by rw [hPx]; exact g2, g3, g4, g5⟩
      simp only [seqRun, hpass, Bool.false_eq_true, if_false]
      exact g1

/-- Mode B where the width of the encoder's values is the width the buffer is allocated
and written with: for every stream the buffer holds the stream without the members of
the filter set, runs collapsed under compression; no stored value is in the filter
set; under compression no two consecutive stored values are equal; the destination
holds exactly the stored elements, and the cardinality is their number. -/
theorem fullMmerSequence_agreeing_widths (opts : Dashing2Options) (E : List Nat)
    (hw : encoderBytes opts = bufferBytes opts) :
    ∃ buf, fullMmerSequence opts E = some buf ∧
      buf.ptr = sequenceSpec opts.fs_ opts.homopolymer_compress_minimizers_ E ∧
      buf.l = buf.ptr.length ∧
      (∀ in_set, opts.fs_ = some in_set → ∀ x ∈ buf.ptr, in_set x = false) ∧
      (opts.homopolymer_compress_minimizers_ = true →
        Chain' (fun a b => a ≠ b) buf.ptr) ∧
      destElements opts buf = some buf.ptr ∧
      (∀ (fs : FS) (d : String) (inp : FileInput), inp.emissions = E →
        modeB opts fs d inp
          = Except.ok { fs := fs.write d (buf.ptr.length * bufferBytes opts),
                        branch := Branch.modeB, emitted := E.length,
                        cardinality := some buf.ptr.length }) := by
  have hbytes : (1 + (if opts.use128 then 1 else 0)) * (1 <<< 20) * 8
      = (1 <<< 20) * encoderBytes opts := by
    rw [hw]; unfold bufferBytes; ring
  obtain ⟨buf, h1, h2, h3, h4, h5⟩ :=
    seqRun_spec opts.fs_ (encoderBytes opts) opts.homopolymer_compress_minimizers_ E
      { ptr := [], m := 1 <<< 20, l := 0,
        bytes := (1 + (if opts.use128 then 1 else 0)) * (1 <<< 20) * 8 } []
      rfl (Nat.zero_le _) (show 0 < 1 <<< 20 by decide) hbytes
      (by cases hf : opts.fs_ <;> cases hc : opts.homopolymer_compress_minimizers_ <;>
            simp [sequenceSpec, collapseRuns])
  rw [nil_append] at h2
  have hfull : fullMmerSequence opts E = some buf := h1
  have hdtpos : 0 < encoderBytes opts := by
    rw [hw]; unfold bufferBytes; omega
  have hwritten : seqBytesWritten opts buf.l = buf.l * encoderBytes opts := by
    rw [hw]; unfold seqBytesWritten bufferBytes; ring
  refine ⟨buf, hfull, h2, h3, ?_, ?_, ?_, ?_⟩
  · intro in_set hfs x hx
    rw [h2, hfs] at hx
    have hx1 : x ∈ filter (fun x => decide (in_set x = false)) E := by
      by_cases hc : opts.homopolymer_compress_minimizers_ = true
      · simp only [sequenceSpec, hc, if_true] at hx
        exact mem_collapseRuns _ _ hx
      · simp only [sequenceSpec, hc, if_false, Bool.false_eq_true] at hx
        exact hx
    simpa using (mem_filter.mp hx1).2
  · intro hc
    rw [h2]
    simp only [sequenceSpec, hc, if_true]
    exact chain_collapseRuns _
  · unfold destElements storedElements
    rw [hwritten, if_pos (Nat.le_refl _), Nat.mul_div_cancel _ hdtpos, h3, take_length]
  · intro fs d inp hE
    unfold modeB
    rw [hE, hfull]
    have hnb : buf.l * (1 + (if opts.use128 then 1 else 0)) * 8 = buf.l * bufferBytes opts := by
      unfold bufferBytes; ring
    have hfit : buf.l * bufferBytes opts ≤ buf.bytes := by
      rw [h5, ← hw]
      exact Nat.mul_le_mul_right _ h4
    simp only
    rw [hnb, if_pos hfit, h3]

/-- Witness for `fullMmerSequence_agreeing_widths`: DNA with `k = 31` and `use128` off, the
stream `[4, 4, 7, 7, 7, 2, 2, 9]` under compression with the filter set `{7}`; the
buffer holds `[4, 2, 9]`. -/
theorem fullMmerSequence_agreeing_widths_witness :
    ∃ buf,
      fullMmerSequence
        { sampleOpts with homopolymer_compress_minimizers_ := true,
                          fs_ := some (fun x => decide (x = 7)) }
        [4, 4, 7, 7, 7, 2, 2, 9] = some buf ∧
      buf.ptr = [4, 2, 9] := by
  obtain ⟨buf, h1, h2, _⟩ :=
    fullMmerSequence_agreeing_widths
      { sampleOpts with homopolymer_compress_minimizers_ := true,
                        fs_ := some (fun x => decide (x = 7)) }
      [4, 4, 7, 7, 7, 2, 2, 9] (by decide)
  exact ⟨buf, h1, h2.trans (by decide)⟩

/-- Claim C8, at the failing input. DNA with `k = 32`, `use128` off, compression on and
the filter set `{5}`, the stream `[4, 4, 5, 7, 7, 7, 2, 2, 9]`: the buffer stores
`[4, 7, 2, 9]`, the specified output, as four 16-byte values, and the cardinality is 4;
but the write of line 454 sends `4 * (1 + use128) * 8 = 32` bytes, so the destination
holds the two values `[4, 7]`, not the buffer. -/
theorem sequence_dest_holds_half :
    sequenceSpec (some (fun x => decide (x = 5))) true [4, 4, 5, 7, 7, 7, 2, 2, 9]
      = [4, 7, 2, 9] ∧
    (fullMmerSequence
        { sampleOpts with k_ := 32, kmer_result_ := KmerSketchResultType.FULL_MMER_SEQUENCE,
                          homopolymer_compress_minimizers_ := true,
                          fs_ := some (fun x => decide (x = 5)) }
        [4, 4, 5, 7, 7, 7, 2, 2, 9]).map (fun buf => (buf.ptr, buf.l))
      = some ([4, 7, 2, 9], 4) ∧
    (fullMmerSequence
        { sampleOpts with k_ := 32, kmer_result_ := KmerSketchResultType.FULL_MMER_SEQUENCE,
                          homopolymer_compress_minimizers_ := true,
                          fs_ := some (fun x => decide (x = 5)) }
        [4, 4, 5, 7, 7, 7, 2, 2, 9]).bind
      (destElements
        { sampleOpts with k_ := 32, kmer_result_ := KmerSketchResultType.FULL_MMER_SEQUENCE,
                          homopolymer_compress_minimizers_ := true,
                          fs_ := some (fun x => decide (x = 5)) }) = some [4, 7] ∧
    sketchOnePath sampleRenderers
      { sampleOpts with k_ := 32, kmer_result_ := KmerSketchResultType.FULL_MMER_SEQUENCE,
                        homopolymer_compress_minimizers_ := true,
                        fs_ := some (fun x => decide (x = 5)) }
      8 [("a.fa", 100)] "a.fa"
      { emissions := [4, 4, 5, 7, 7, 7, 2, 2, 9], keys := [], kmerveccounts := [],
        idsNonNull := true }
      = Except.ok { fs := [("a.fa.32.SET.DNA.ss", 32), ("a.fa", 100)],
                    branch := Branch.modeB, emitted := 9, cardinality := some 4 } :=
  ⟨by decide, by decide, by decide, rfl⟩

/-! ## By-sequence merger -/

theorem offsetsFrom_getD : ∀ (lens : List Nat) (acc j : Nat), j ≤ lens.length →
    (offsetsFrom acc lens).getD j 0 = acc + (lens.take j).sum
  | [], acc, j, hj => by
    have : j = 0 := by simpa using hj
    subst this
    simp [offsetsFrom]
  | n :: rest, acc, 0, _ => by simp [offsetsFrom]
  | n :: rest, acc, j + 1, hj => by
    have hj1 : j ≤ rest.length := by simpa using hj
    have ih := offsetsFrom_getD rest (acc + n) j hj1
    simp only [offsetsFrom, getD_cons_succ, take_succ_cons, sum_cons]
    rw [ih]; omega

theorem prefix_sum_le : ∀ (l : List Nat) (j x : Nat), l.get? j = some x →
    (l.take j).sum + x ≤ l.sum
  | [], j, x, h => by simp at h
  | a :: rest, 0, x, h => by
    simp only [get?_cons_zero, Option.some.injEq] at h
    subst h
    simp
  | a :: rest, j + 1, x, h => by
    have ih := prefix_sum_le rest j x (by simpa using h)
    simp only [take_succ_cons, sum_cons]
    omega

theorem copyInto_block {α : Type} (A M : List α) (z : α) (R : Nat) :
    copyInto (A ++ replicate (M.length + R) z) A.length M
      = some (A ++ M ++ replicate R z) := by
  unfold copyInto
  by_cases hM : M.length = 0
  · have : M = [] := length_eq_zero.mp hM
    subst this
    simp
  · have hfit : A.length + M.length ≤ (A ++ replicate (M.length + R) z).length := by
      simp
    have h1 : take A.length (A ++ replicate (M.length + R) z) = A := by simp
    have h3 : drop (A.length + M.length) (A ++ replicate (M.length + R) z)
        = replicate R z := by
      rw [drop_append]
      simp
    rw [if_neg hM, if_pos hfit, h1, h3]

theorem copyInto_length {α : Type} (dst src d : List α) (ofs : Nat)
    (h : copyInto dst ofs src = some d) : d.length = dst.length := by
  unfold copyInto at h
  by_cases hM : src.length = 0
  · rw [if_pos hM] at h
    cases h
    rfl
  · rw [if_neg hM] at h
    by_cases hfit : ofs + src.length ≤ dst.length
    · rw [if_pos hfit] at h
      cases h
      simp only [length_append, length_take, length_drop]
      omega
    · rw [if_neg hfit] at h
      cases h

theorem copyInto_some_of_fits {α : Type} (dst src : List α) (ofs : Nat)
    (h : fits dst.length ofs src.length) : ∃ d, copyInto dst ofs src = some d := by
  unfold copyInto
  by_cases hM : src.length = 0
  · exact ⟨dst, by rw [if_pos hM]⟩
  · rcases h with h | h
    · exact absurd h hM
    · exact ⟨_, by rw [if_neg hM, if_pos h]⟩

theorem guarded_copy_length {α : Type} (flag : Bool) (dst src d : List α) (ofs : Nat)
    (h : (if flag then copyInto dst ofs src else some dst) = some d) :
    d.length = dst.length := by
  cases flag with
  | false =>
    simp only [Bool.false_eq_true, if_false, Option.some.injEq] at h
    rw [← h]
  | true =>
    simp only [if_true] at h
    exact copyInto_length _ _ _ _ h

/-- What one iteration of the copy loop leaves, when every copy of it is defined. -/
theorem mergeStep_of_some (names : List String) (offsets sig_offsets : List Nat)
    (f1 f2 f3 f4 : Bool) (i : Nat) (src ret ret1 : SketchingResult)
    (h : mergeStep names offsets sig_offsets f1 f2 f3 f4 i src ret = some ret1) :
    copyInto ret.names_ (offsets.getD i 0)
        (src.names_.map (fun x => x ++ ":" ++ fnameAt names i)) = some ret1.names_ ∧
    ret1.nperfile_ = ret.nperfile_ ∧
    (if f2 then copyInto ret.signatures_ (sig_offsets.getD i 0) src.signatures_
      else some ret.signatures_) = some ret1.signatures_ ∧
    sameLengths ret1 ret := by
  unfold mergeStep at h
  simp only [Option.bind_eq_some] at h
  obtain ⟨n, hn, c, hc, s, hs, g, hg, k, hk, kc, hkc, hret⟩ := h
  simp only [Option.some.injEq] at hret
  subst hret
  refine ⟨hn, rfl, hg, ?_, ?_, ?_, ?_, ?_, ?_⟩
  · exact copyInto_length _ _ _ _ hn
  · exact copyInto_length _ _ _ _ hc
  · exact guarded_copy_length _ _ _ _ _ hs
  · exact guarded_copy_length _ _ _ _ _ hg
  · exact guarded_copy_length _ _ _ _ _ hk
  · exact guarded_copy_length _ _ _ _ _ hkc

theorem guarded_copy_some {α : Type} (flag : Bool) (dst src : List α) (ofs : Nat)
    (h : flag = true → fits dst.length ofs src.length) :
    ∃ d, (if flag then copyInto dst ofs src else some dst) = some d := by
  cases flag with
  | false => exact ⟨dst, by simp⟩
  | true =>
    obtain ⟨d, hd⟩ := copyInto_some_of_fits dst src ofs (h rfl)
    exact ⟨d, by simpa using hd⟩

/-- One iteration of the copy loop is defined when every copy of it fits. -/
theorem mergeStep_some (names : List String) (offsets sig_offsets : List Nat)
    (f1 f2 f3 f4 : Bool) (i : Nat) (src ret : SketchingResult)
    (h : stepFits f1 f2 f3 f4 ret src (offsets.getD i 0) (sig_offsets.getD i 0)) :
    ∃ ret1, mergeStep names offsets sig_offsets f1 f2 f3 f4 i src ret = some ret1 := by
  obtain ⟨h1, h2, h3, h4, h5, h6⟩ := h
  obtain ⟨n, hn⟩ := copyInto_some_of_fits ret.names_
    (src.names_.map (fun x => x ++ ":" ++ fnameAt names i)) (offsets.getD i 0)
    (by simpa using h1)
  obtain ⟨c, hc⟩ := copyInto_some_of_fits ret.cardinalities_ src.cardinalities_ _ h2
  obtain ⟨s, hs⟩ := guarded_copy_some f1 ret.sequences_ src.sequences_ (offsets.getD i 0) h3
  obtain ⟨g, hg⟩ := guarded_copy_some f2 ret.signatures_ src.signatures_
    (sig_offsets.getD i 0) h4
  obtain ⟨k, hk⟩ := guarded_copy_some f3 ret.kmers_ src.kmers_ (sig_offsets.getD i 0) h5
  obtain ⟨kc, hkc⟩ := guarded_copy_some f4 ret.kmercounts_ src.kmercounts_
    (sig_offsets.getD i 0) h6
  refine ⟨{ names_ := n, nperfile_ := ret.nperfile_, cardinalities_ := c, sequences_ := s,
             signatures_ := g, kmers_ := k, kmercounts_ := kc }, ?_⟩
  unfold mergeStep
  simp only [hn, hc, hs, hg, hk, hkc, Option.some_bind]

theorem stepFits_of_sameLengths (f1 f2 f3 f4 : Bool) (a b src : SketchingResult)
    (ofs sofs : Nat) (hl : sameLengths a b) (h : stepFits f1 f2 f3 f4 b src ofs sofs) :
    stepFits f1 f2 f3 f4 a src ofs sofs := by
  obtain ⟨l1, l2, l3, l4, l5, l6⟩ := hl
  unfold stepFits at h ⊢
  rw [l1, l2, l3, l4, l5, l6]
  exact h

/-- The copy loop is defined when every copy of every iteration fits. -/
theorem mergeLoop_some (names : List String) (offsets sig_offsets : List Nat)
    (f1 f2 f3 f4 : Bool) :
    ∀ (rest : List SketchingResult) (i : Nat) (ret : SketchingResult),
      (∀ j src, rest.get? j = some src →
        stepFits f1 f2 f3 f4 ret src (offsets.getD (i + j) 0) (sig_offsets.getD (i + j) 0)) →
      ∃ ret2, mergeLoop names offsets sig_offsets f1 f2 f3 f4 i rest ret = some ret2
  | [], _, ret, _ => ⟨ret, rfl⟩
  | src :: rest, i, ret, h => by
    obtain ⟨ret1, h1⟩ := mergeStep_some names offsets sig_offsets f1 f2 f3 f4 i src ret
      (by simpa using h 0 src rfl)
    have hl := (mergeStep_of_some _ _ _ _ _ _ _ _ _ _ _ h1).2.2.2
    obtain ⟨ret2, h2⟩ := mergeLoop_some names offsets sig_offsets f1 f2 f3 f4 rest (i + 1) ret1
      (by
        intro j s hs
        have := h (j + 1) s (by simpa using hs)
        rw [show i + (j + 1) = i + 1 + j by omega] at this
        exact stepFits_of_sameLengths _ _ _ _ _ _ _ _ _ hl this)
    exact ⟨ret2, by simp only [mergeLoop, h1]; exact h2⟩

/-- The names and the per-file counts the copy loop leaves, when it is defined. -/
theorem mergeLoop_names (names : List String) (offsets sig_offsets : List Nat)
    (f1 f2 f3 f4 : Bool) :
    ∀ (rest : List SketchingResult) (i : Nat) (ret ret2 : SketchingResult)
      (A : List String),
      mergeLoop names offsets sig_offsets f1 f2 f3 f4 i rest ret = some ret2 →
      ret.names_ = A ++ replicate ((rest.map (fun r => r.names_.length)).sum) "" →
      (∀ j, j < rest.length →
        offsets.getD (i + j) 0
          = A.length + ((rest.take j).map (fun r => r.names_.length)).sum) →
      ret2.names_ = A ++ namesFrom names i rest ∧ ret2.nperfile_ = ret.nperfile_
  | [], i, ret, ret2, A, hrun, hret, _ => by
    simp only [mergeLoop, Option.some.injEq] at hrun
    subst hrun
    exact ⟨by simpa [namesFrom] using hret, rfl⟩
  | src :: rest, i, ret, ret2, A, hrun, hret, hofs => by
    have h0 : offsets.getD i 0 = A.length := by
      have := hofs 0 (by simp)
      simpa using this
    simp only [mergeLoop] at hrun
    cases hstep : mergeStep names offsets sig_offsets f1 f2 f3 f4 i src ret with
    | none => rw [hstep] at hrun; cases hrun
    | some ret1 =>
      rw [hstep] at hrun
      obtain ⟨hn, hnp, _, _⟩ := mergeStep_of_some _ _ _ _ _ _ _ _ _ _ _ hstep
      have hnames1 : ret1.names_
          = (A ++ src.names_.map (fun x => x ++ ":" ++ fnameAt names i))
            ++ replicate ((rest.map (fun r => r.names_.length)).sum) "" := by
        rw [hret, h0] at hn
        simp only [map_cons, sum_cons] at hn
        have hlen : (src.names_.map (fun x => x ++ ":" ++ fnameAt names i)).length
            = src.names_.length := by simp
        rw [← hlen, copyInto_block] at hn
        exact (Option.some.inj hn).symm
      obtain ⟨g1, g2⟩ := mergeLoop_names names offsets sig_offsets f1 f2 f3 f4 rest (i + 1)
        ret1 ret2 _ hrun hnames1 (by
          intro j hj
          have := hofs (j + 1) (by simp; omega)
          rw [show i + (j + 1) = i + 1 + j by omega] at this
          rw [this]
          simp only [take_succ_cons, map_cons, sum_cons, length_append, length_map]
          omega)
      refine ⟨?_, by rw [g2, hnp]⟩
      rw [g1]
      simp [namesFrom]

theorem namesFrom_eq_spec (names : List String) :
    ∀ (rest : List SketchingResult) (i : Nat), (names.drop i).length = rest.length →
      namesFrom names i rest = mergedNamesSpec rest (names.drop i)
  | [], i, _ => by
    cases names.drop i <;> simp [namesFrom, mergedNamesSpec]
  | src :: rest, i, hlen => by
    cases hd : names.drop i with
    | nil => rw [hd] at hlen; simp at hlen
    | cons f fs =>
      have hf : names.get? i = some f := by
        have := congrArg List.head? hd
        simpa [List.head?_drop] using this
      have hfs : names.drop (i + 1) = fs := by
        have : names.drop (i + 1) = (names.drop i).tail := by simp [List.tail_drop]
        rw [this, hd]; rfl
      have hlen1 : (names.drop (i + 1)).length = rest.length := by
        rw [hfs]; rw [hd] at hlen; simpa using hlen
      have hfn : fnameAt names i = truncAtSpace f := by
        unfold fnameAt; rw [hf]
      simp only [namesFrom, mergedNamesSpec]
      rw [namesFrom_eq_spec names rest (i + 1) hlen1, hfs, hfn]

theorem sum_map_signatures (ss : Nat) : ∀ (start : List SketchingResult),
    (∀ r ∈ start, r.signatures_.length = r.names_.length * ss) →
    (start.map (fun r => r.signatures_.length)).sum
      = (start.map (fun r => r.names_.length)).sum * ss
  | [], _ => by simp
  | r :: rest, h => by
    simp only [map_cons, sum_cons]
    rw [sum_map_signatures ss rest (fun x hx => h x (mem_cons_of_mem _ hx)),
      h r (mem_cons_self _ _)]
    ring

theorem prefix_sum_map_le (f : SketchingResult → Nat) (all : List SketchingResult)
    (j : Nat) (src : SketchingResult) (h : all.get? j = some src) :
    ((all.map f).take j).sum + f src ≤ (all.map f).sum :=
  prefix_sum_le (all.map f) j (f src) (by
    rw [List.get?_eq_getElem?, List.getElem?_map, ← List.get?_eq_getElem?, h]
    rfl)

theorem get?_lt_length {α : Type} (l : List α) (j : Nat) (x : α) (h : l.get? j = some x) :
    j < l.length := by
  by_contra hlt
  rw [List.get?_eq_none.mpr (by omega)] at h
  cases h

/-- When `merge` returns for two or more sub-results, the merged names are the blocks of
renamed sequence names in file order and `nperfile` counts the names of each
sub-result. -/
theorem merge_some_names (first second : SketchingResult) (more : List SketchingResult)
    (names : List String) (ret : SketchingResult)
    (hret : merge (first :: second :: more) names = some ret) :
    ret.names_ = namesFrom names 0 (first :: second :: more) ∧
    ret.nperfile_ = (first :: second :: more).map (fun r => r.names_.length) := by
  by_cases hne : first.names_.length = 0
  · simp [merge, hne] at hret
  · simp only [merge, hne, if_false] at hret
    have := mergeLoop_names names _ _ _ _ _ _ (first :: second :: more) 0 _ ret [] hret
      (by simp) (by
        intro j hj
        rw [Nat.zero_add, offsetsFrom_getD _ _ _ (by simp at hj ⊢; omega)]
        simp [map_take])
    simpa using this

/-- For two or more sub-results of consistent shape of which the first has a sequence,
every copy of `merge` fits its target array, and `merge` returns. -/
theorem merge_some_of_consistent (first second : SketchingResult)
    (more : List SketchingResult) (names : List String) (ss : Nat)
    (hfirst : first.names_ ≠ [])
    (hc : ∀ r ∈ first :: second :: more, r.Consistent ss) :
    ∃ ret, merge (first :: second :: more) names = some ret := by
  have hne : first.names_.length ≠ 0 := fun h => hfirst (length_eq_zero.mp h)
  have hsum := sum_map_signatures ss (first :: second :: more) (fun r hr => (hc r hr).2.2.1)
  have hsk : first.signatures_.length / first.names_.length = ss := by
    rw [(hc first (mem_cons_self _ _)).2.2.1]
    exact Nat.mul_div_cancel_left ss (Nat.pos_of_ne_zero hne)
  simp only [merge, hne, if_false]
  apply mergeLoop_some
  intro j src hsrc
  have hj : j < (first :: second :: more).length := get?_lt_length _ _ _ hsrc
  have hmem : src ∈ first :: second :: more := List.get?_mem hsrc
  obtain ⟨c1, c2, c3, c4, c5⟩ := hc src hmem
  have hN := prefix_sum_map_le (fun r => r.names_.length) _ j src hsrc
  have hS := prefix_sum_map_le (fun r => r.signatures_.length) _ j src hsrc
  rw [Nat.zero_add, offsetsFrom_getD _ _ _ (by simp at hj ⊢; omega),
    offsetsFrom_getD _ _ _ (by simp at hj ⊢; omega), Nat.zero_add, Nat.zero_add]
  rw [hsum] at hS
  rw [hsk, hsum]
  simp only [] at hN hS
  refine ⟨?_, ?_, ?_, ?_, ?_, ?_⟩
  · right
    simp only [length_replicate]
    exact hN
  · right
    simp only [length_replicate]
    omega
  · intro _
    by_cases hany : (first :: second :: more).any (fun r => decide (r.sequences_.length ≠ 0))
        = true
    · right
      simp only [if_pos hany, length_replicate]
      omega
    · left
      by_contra hz
      exact hany (List.any_eq_true.mpr ⟨src, hmem, by simpa using hz⟩)
  · intro _
    by_cases hpos : ((first :: second :: more).map (fun r => r.names_.length)).sum * ss > 0
    · right
      simp only [if_pos hpos, length_replicate]
      omega
    · left
      omega
  · intro hk
    have hk1 : first.kmers_.length ≠ 0 := by
      intro h0
      rw [length_eq_zero.mp h0] at hk
      simp at hk
    right
    simp only [if_pos hk1, length_replicate]
    omega
  · intro hk
    have hk1 : first.kmercounts_.length ≠ 0 := by
      intro h0
      rw [length_eq_zero.mp h0] at hk
      simp at hk
    right
    simp only [if_pos hk1, length_replicate]
    omega

/-- For two or more sub-results and as many file names, a result `merge` returns has the
specified names and per-file counts; and `merge` returns when the first sub-result has a
sequence and the sub-results are of consistent shape. -/
theorem merge_returns_names (start : List SketchingResult) (names : List String)
    (hn : 2 ≤ start.length) (hnames : names.length = start.length) :
    (∀ ret, merge start names = some ret →
      ret.names_ = mergedNamesSpec start names ∧
      ret.nperfile_ = start.map (fun r => r.names_.length)) ∧
    (∀ ss, (∀ r, start.head? = some r → r.names_ ≠ []) →
      (∀ r ∈ start, r.Consistent ss) → ∃ ret, merge start names = some ret) := by
  match start, hn, hnames with
  | first :: second :: more, _, hnames =>
    refine ⟨?_, ?_⟩
    · intro ret hret
      obtain ⟨h1, h2⟩ := merge_some_names first second more names ret hret
      refine ⟨?_, h2⟩
      rw [h1, namesFrom_eq_spec names _ 0 (by simpa using hnames)]
      simp
    · intro ss hfirst hc
      exact merge_some_of_consistent first second more names ss (hfirst first rfl) hc

/-- Claim C9, at the failing input. Two sub-results, the first without sequences (a file
with no record) and the second with the sequences `a`, `b`, and the file names `x.fa`,
`y.fa`: the claim gives the merged names `[a:y.fa, b:y.fa]` and `nperfile = [0, 2]`,
whereas `merge` returns no result, line 529 dividing by the number of names of the
first sub-result; on the claim's own example, where the first file has sequences,
`merge` returns the claimed names and counts. -/
theorem merge_names_empty_first_file :
    merge [subResult [], subResult ["a", "b"]] ["x.fa", "y.fa"] = none ∧
    mergedNamesSpec [subResult [], subResult ["a", "b"]] ["x.fa", "y.fa"]
      = ["a:y.fa", "b:y.fa"] ∧
    [subResult [], subResult ["a", "b"]].map (fun r => r.names_.length) = [0, 2] ∧
    (merge [subResult ["a", "b"], subResult ["c"]] ["x.fa", "y.fa"]).map
        (fun r => (r.names_, r.nperfile_))
      = some (["a:x.fa", "b:x.fa", "c:y.fa"], [2, 1]) := by
  decide

theorem mem_namesFrom (names : List String) :
    ∀ (rest : List SketchingResult) (i : Nat) (nm : String), nm ∈ namesFrom names i rest →
    ∃ x j, (∃ r, rest.get? j = some r ∧ x ∈ r.names_) ∧
      nm = x ++ ":" ++ fnameAt names (i + j)
  | [], _, nm, h => by simp [namesFrom] at h
  | src :: rest, i, nm, h => by
    simp only [namesFrom, mem_append, mem_map] at h
    rcases h with ⟨x, hx, hnm⟩ | h
    · exact ⟨x, 0, ⟨src, rfl, hx⟩, hnm.symm⟩
    · obtain ⟨x, j, ⟨r, hr, hx⟩, hnm⟩ := mem_namesFrom names rest (i + 1) nm h
      refine ⟨x, j + 1, ⟨r, by simpa using hr, hx⟩, ?_⟩
      rw [hnm, show i + 1 + j = i + (j + 1) by omega]

theorem fnameAt_eq (names : List String) (j : Nat) :
    fnameAt names j = ((names.get? j).map truncAtSpace).getD "" := by
  unfold fnameAt
  cases names.get? j <;> rfl

theorem count_colon_joined (x f : String) :
    (x ++ ":" ++ f).data.count ':' = x.data.count ':' + 1 + f.data.count ':' := by
  have h : (x ++ ":" ++ f).data = x.data ++ ([':'] ++ f.data) := by
    simp [String.data_append]
  rw [h, count_append, count_append]
  simp
  omega

/-- Claim C10, as the code has it. For `n ≥ 2` sub-results and any list of file names,
every name of a result `merge` returns is a sequence name of some sub-result `j`
followed by `:` and file name `j` truncated at its first space (nothing when there is
no file name `j`), so that its number of `:` is one more than those of the two parts;
when no sequence name and no truncated file name contains `:`, every merged name
contains exactly one. And `merge` returns whenever the first sub-result has a sequence
and every sub-result has the shape the by-sequence sketcher delivers. -/
theorem merge_names_colons (start : List SketchingResult) (names : List String)
    (hn : 2 ≤ start.length) :
    (∀ ret, merge start names = some ret →
      (∀ nm ∈ ret.names_, ∃ x j, (∃ r, start.get? j = some r ∧ x ∈ r.names_) ∧
        nm = x ++ ":" ++ ((names.get? j).map truncAtSpace).getD "" ∧
        nm.data.count ':' = x.data.count ':' + 1
          + (((names.get? j).map truncAtSpace).getD "").data.count ':') ∧
      ((∀ r ∈ start, ∀ x ∈ r.names_, x.data.count ':' = 0) →
       (∀ f ∈ names, (truncAtSpace f).data.count ':' = 0) →
       ∀ nm ∈ ret.names_, nm.data.count ':' = 1)) ∧
    (∀ ss, (∀ r, start.head? = some r → r.names_ ≠ []) →
      (∀ r ∈ start, r.Consistent ss) → ∃ ret, merge start names = some ret) := by
  match start, hn with
  | first :: second :: more, _ =>
    refine ⟨?_, ?_⟩
    · intro ret hret
      obtain ⟨hnm, _⟩ := merge_some_names first second more names ret hret
      have hall : ∀ nm ∈ ret.names_, ∃ x j,
          (∃ r, (first :: second :: more).get? j = some r ∧ x ∈ r.names_) ∧
          nm = x ++ ":" ++ ((names.get? j).map truncAtSpace).getD "" ∧
          nm.data.count ':' = x.data.count ':' + 1
            + (((names.get? j).map truncAtSpace).getD "").data.count ':' := by
        intro nm h
        rw [hnm] at h
        obtain ⟨x, j, hx, he⟩ := mem_namesFrom names _ 0 nm h
        rw [Nat.zero_add, fnameAt_eq] at he
        exact ⟨x, j, hx, he, by rw [he]; exact count_colon_joined x _⟩
      refine ⟨hall, ?_⟩
      intro hseq hfile nm h
      obtain ⟨x, j, ⟨r, hr, hx⟩, _, hc⟩ := hall nm h
      have hf : (((names.get? j).map truncAtSpace).getD "").data.count ':' = 0 := by
        cases hg : names.get? j with
        | none => rfl
        | some f => exact hfile f (List.get?_mem hg)
      rw [hc, hseq r (List.get?_mem hr) x hx, hf]
    · intro ss hfirst hc
      exact merge_some_of_consistent first second more names ss (hfirst first rfl) hc

/-- Witness for `merge_names_colons`: sequences `[a, b]` and `[c]` with files `x.fa`,
`y.fa`; the sub-results have the shape of sketch size 0 and the first has a sequence, so
`merge` returns; no name contains a colon, and the merged names contain one each. -/
theorem merge_names_colons_witness :
    2 ≤ [subResult ["a", "b"], subResult ["c"]].length ∧
    ∃ ret, merge [subResult ["a", "b"], subResult ["c"]] ["x.fa", "y.fa"] = some ret ∧
      ∀ nm ∈ ret.names_, nm.data.count ':' = 1 := by
  obtain ⟨h1, h2⟩ :=
    merge_names_colons [subResult ["a", "b"], subResult ["c"]] ["x.fa", "y.fa"] (by decide)
  obtain ⟨ret, hret⟩ := h2 0 (by intro r h; cases h; decide) (by decide)
  exact ⟨by decide, ret, hret, (h1 ret hret).2 (by decide) (by decide)⟩

/-- Claim C10 as stated fails: the sequence name `a:b` of the first file is merged to
`a:b:x.fa`, which contains two colons. -/
theorem merge_name_two_colons :
    (merge [subResult ["a:b"], subResult ["c"]] ["x.fa", "y.fa"]).map
        (fun r => r.names_) = some ["a:b:x.fa", "c:y.fa"] ∧
    ("a:b:x.fa" : String).data.count ':' = 2 := by
  decide

/-- A colon in a file name is copied as well: the file name `d:x.fa` gives the merged name
`a:d:x.fa`. -/
theorem merge_file_name_colon :
    (merge [subResult ["a"], subResult ["c"]] ["d:x.fa", "y.fa"]).map
        (fun r => r.names_) = some ["a:d:x.fa", "c:y.fa"] ∧
    ("a:d:x.fa" : String).data.count ':' = 2 := by
  decide

/-! ## Destination namer: which configurations are told apart -/

theorem appendAll_data (comps : List String) : ∀ base : String,
    (appendAll base comps).data = base.data ++ comps.foldr (fun c acc => c.data ++ acc) [] := by
  induction comps with
  | nil => intro base; simp [appendAll]
  | cons c cs ih =>
    intro base
    have h := ih (base ++ c)
    unfold appendAll at h ⊢
    simp only [foldl_cons, foldr_cons]
    rw [h, String.data_append, append_assoc]

theorem foldr_data_append (pre post : List String) :
    (pre ++ post).foldr (fun c acc => c.data ++ acc) []
      = pre.foldr (fun c acc => c.data ++ acc) []
        ++ post.foldr (fun c acc => c.data ++ acc) [] := by
  induction pre with
  | nil => simp
  | cons c cs ih => simp [ih]

theorem digitChar_ne_dot (d : Nat) (hd : d < 10) : Nat.digitChar d ≠ '.' := by
  interval_cases d <;> decide

theorem toDigitsCore_no_dot : ∀ (f n : Nat) (ds : List Char),
    (∀ c ∈ ds, c ≠ '.') → ∀ c ∈ Nat.toDigitsCore 10 f n ds, c ≠ '.'
  | 0, n, ds, hds => by simpa [Nat.toDigitsCore] using hds
  | f + 1, n, ds, hds => by
    have hds1 : ∀ c ∈ Nat.digitChar (n % 10) :: ds, c ≠ '.' := by
      intro c hc
      rcases mem_cons.mp hc with h | h
      · rw [h]; exact digitChar_ne_dot _ (Nat.mod_lt _ (by decide))
      · exact hds c h
    simp only [Nat.toDigitsCore]
    split
    · exact hds1
    · exact toDigitsCore_no_dot f (n / 10) _ hds1

theorem repr_no_dot (n : Nat) : ∀ c ∈ (Nat.repr n).data, c ≠ '.' := by
  unfold Nat.repr Nat.toDigits
  simp only [List.asString]
  exact toDigitsCore_no_dot _ _ [] (by simp)

/-- The value of a decimal digit character. -/
theorem digitChar_toNat (d : Nat) (hd : d < 10) : (Nat.digitChar d).toNat - 48 = d := by
  interval_cases d <;> rfl

theorem toDigitsCore_value : ∀ (f n : Nat) (ds : List Char), n < f →
    (Nat.toDigitsCore 10 f n ds).foldl (fun a c => a * 10 + (c.toNat - 48)) 0
      = ds.foldl (fun a c => a * 10 + (c.toNat - 48)) n
  | 0, n, ds, h => by omega
  | f + 1, n, ds, h => by
    simp only [Nat.toDigitsCore]
    have hd := digitChar_toNat (n % 10) (Nat.mod_lt _ (by decide))
    split
    · rename_i h0
      simp only [foldl_cons, hd]
      congr 1
      have := Nat.div_add_mod n 10
      omega
    · rename_i h0
      have hlt : n / 10 < f := by
        have := Nat.div_add_mod n 10
        omega
      rw [toDigitsCore_value f (n / 10) _ hlt]
      simp only [foldl_cons, hd]
      congr 1
      have := Nat.div_add_mod n 10
      omega

theorem repr_injective (a b : Nat) (h : Nat.repr a = Nat.repr b) : a = b := by
  have hv : ∀ n : Nat,
      (Nat.repr n).data.foldl (fun a c => a * 10 + (c.toNat - 48)) 0 = n := by
    intro n
    unfold Nat.repr Nat.toDigits
    simp only [List.asString]
    rw [toDigitsCore_value _ _ _ (Nat.lt_succ_self n)]
    rfl
  rw [← hv a, ← hv b, h]

theorem split_at_first {c : Char} : ∀ (a b x y : List Char),
    c ∉ a → c ∉ b → a ++ c :: x = b ++ c :: y → a = b
  | [], [], _, _, _, _, _ => rfl
  | [], d :: b, x, y, _, hb, h => by
    simp only [nil_append, cons_append, cons.injEq] at h
    exact absurd (h.1 ▸ mem_cons_self _ _) hb
  | d :: a, [], x, y, ha, _, h => by
    simp only [nil_append, cons_append, cons.injEq] at h
    exact absurd (h.1 ▸ mem_cons_self _ _) ha
  | d :: a, e :: b, x, y, ha, hb, h => by
    simp only [cons_append, cons.injEq] at h
    have := split_at_first a b x y (fun hm => ha (mem_cons_of_mem _ hm))
      (fun hm => hb (mem_cons_of_mem _ hm)) h.2
    rw [h.1, this]

theorem destComponents_shape (R : Renderers) (opts : Dashing2Options) :
    ∃ t, (destComponents R opts).foldr (fun c acc => c.data ++ acc) []
      = '.' :: ((Nat.repr opts.k_).data ++ '.' :: t) := by
  unfold destComponents
  by_cases hw : opts.w_ > opts.k_ <;> by_cases ht : opts.count_threshold_ > 0 <;>
    by_cases hs : opts.sspace_ = SketchSpace.SPACE_SET ∨
      opts.sspace_ = SketchSpace.SPACE_EDIT_DISTANCE <;>
    simp [hw, ht, hs, String.data_append]

/-- For a path and two configurations with the same base name: if they differ in `k`, the
destinations differ; if the lists of components `makedest` appends differ in exactly one
component, the destinations differ; and if the lists are equal, the destinations are
equal. Options which are not among the components (a counting type under SET or
EDIT_DISTANCE, a window `w ≤ k`, a threshold `≤ 0`) are told apart exactly when
`to_suffix`, which is declared outside the source files, encodes them. -/
theorem makedest_separates (R : Renderers) (o1 o2 : Dashing2Options) (path : String)
    (hbase : destBase o1 path = destBase o2 path) :
    (o1.k_ ≠ o2.k_ → makedest R o1 path ≠ makedest R o2 path) ∧
    (∀ (pre post : List String) (c1 c2 : String),
      destComponents R o1 = pre ++ c1 :: post →
      destComponents R o2 = pre ++ c2 :: post →
      c1 ≠ c2 → makedest R o1 path ≠ makedest R o2 path) ∧
    (destComponents R o1 = destComponents R o2 →
      makedest R o1 path = makedest R o2 path) := by
  refine ⟨?_, ?_, ?_⟩
  · intro hk heq
    have hd := congrArg String.data heq
    rw [makedest_unfold, makedest_unfold, appendAll_data, appendAll_data, hbase] at hd
    have hd1 := append_cancel_left hd
    obtain ⟨t1, h1⟩ := destComponents_shape R o1
    obtain ⟨t2, h2⟩ := destComponents_shape R o2
    rw [h1, h2] at hd1
    have hd2 : (Nat.repr o1.k_).data ++ '.' :: t1 = (Nat.repr o2.k_).data ++ '.' :: t2 := by
      simpa using hd1
    have hr : (Nat.repr o1.k_).data = (Nat.repr o2.k_).data :=
      split_at_first _ _ _ _ (fun hm => repr_no_dot _ _ hm rfl)
        (fun hm => repr_no_dot _ _ hm rfl) hd2
    exact hk (repr_injective _ _ (String.ext hr))
  · intro pre post c1 c2 h1 h2 hc heq
    have hd := congrArg String.data heq
    rw [makedest_unfold, makedest_unfold, appendAll_data, appendAll_data, hbase, h1, h2,
      foldr_data_append, foldr_data_append] at hd
    have hd1 := append_cancel_left (append_cancel_left hd)
    simp only [foldr_cons] at hd1
    exact hc (String.ext (append_cancel_right hd1))
  · intro hc
    rw [makedest_unfold, makedest_unfold, hbase, hc]

/-- Witness for `makedest_separates`: the sample configuration with `k = 31` and with
`k = 21`, on the path `a.fa`. -/
theorem makedest_separates_witness :
    makedest sampleRenderers sampleOpts "a.fa"
      ≠ makedest sampleRenderers { sampleOpts with k_ := 21 } "a.fa" :=
  (makedest_separates sampleRenderers sampleOpts { sampleOpts with k_ := 21 } "a.fa"
    (by decide)).1 (by decide)

/-- Two configurations in SET or EDIT_DISTANCE space that differ in the counting type
alone get the same destination exactly when `to_suffix` gives them the same suffix: the
counting-type tag is appended only outside these two spaces (line 236). -/
theorem makedest_counting_type_by_suffix (R : Renderers) (o : Dashing2Options) (c : Nat)
    (path : String)
    (hs : o.sspace_ = SketchSpace.SPACE_SET ∨ o.sspace_ = SketchSpace.SPACE_EDIT_DISTANCE) :
    makedest R o path = makedest R { o with ct := c } path
      ↔ R.to_suffix o = R.to_suffix { o with ct := c } := by
  have hbase : destBase o path = destBase { o with ct := c } path := rfl
  have h1 : destComponents R o
      = (["." ++ Nat.repr o.k_]
          ++ (if o.w_ > o.k_ then ["." ++ Nat.repr o.w_] else [])
          ++ (if o.count_threshold_ > 0 then ["." ++ R.doubleToString o.count_threshold_]
              else [])
          ++ ["." ++ R.sspaceTag o.sspace_, "." ++ R.rhtTag o.rht_])
        ++ R.to_suffix o :: [] := by
    unfold destComponents
    simp [hs]
  have h2 : destComponents R { o with ct := c }
      = (["." ++ Nat.repr o.k_]
          ++ (if o.w_ > o.k_ then ["." ++ Nat.repr o.w_] else [])
          ++ (if o.count_threshold_ > 0 then ["." ++ R.doubleToString o.count_threshold_]
              else [])
          ++ ["." ++ R.sspaceTag o.sspace_, "." ++ R.rhtTag o.rht_])
        ++ R.to_suffix { o with ct := c } :: [] := by
    unfold destComponents
    simp [hs]
  constructor
  · intro heq
    by_contra hne
    exact (makedest_separates R o { o with ct := c } path hbase).2.1 _ [] _ _ h1 h2 hne heq
  · intro hsuf
    rw [makedest_unfold, makedest_unfold, hbase, h1, h2, hsuf]

/-! ## By-sequence merger: a single file, shape, totality -/

/-- Claim C11 as stated fails. One sub-result with the sequence `a` and the file name
`x.fa`: the branch for `n == 1` (lines 506-510) returns the name `x.fa:a`, the file name
first, whereas the form produced for `n ≥ 2` is `a:x.fa`; and it does not truncate the
file name at its first space, `x.fa y.fa` giving `x.fa y.fa:a`. -/
theorem merge_single_prepends_file_name :
    (merge [subResult ["a"]] ["x.fa"]).map (fun r => r.names_) = some ["x.fa:a"] ∧
    mergedNamesSpec [subResult ["a"]] ["x.fa"] = ["a:x.fa"] ∧
    (merge [subResult ["a"]] ["x.fa y.fa"]).map (fun r => r.names_) = some ["x.fa y.fa:a"] ∧
    mergedNamesSpec [subResult ["a"]] ["x.fa y.fa"] = ["a:x.fa"] := by
  decide

/-- Claim C11, as the code has it. For `n = 1` and a list of file names with first entry
`front`, `merge` returns, and the merged names are, in sequence order, the whole of
`front` followed by `:` and the sequence name; nothing else of the sub-result is
changed. -/
theorem merge_single_names (only : SketchingResult) (front : String) (rest : List String) :
    ∃ ret, merge [only] (front :: rest) = some ret ∧
      ret.names_.length = only.names_.length ∧
      (∀ i x, only.names_.get? i = some x → ret.names_.get? i = some (front ++ ":" ++ x)) ∧
      (∀ nm ∈ ret.names_, ∃ x ∈ only.names_, nm = front ++ ":" ++ x) ∧
      ret = { only with names_ := ret.names_ } := by
  refine ⟨{ only with names_ := only.names_.map (fun x => front ++ ":" ++ x) }, rfl, ?_,
    ?_, ?_, rfl⟩
  · simp
  · intro i x hx
    rw [List.get?_eq_getElem?, List.getElem?_map, ← List.get?_eq_getElem?, hx]
    rfl
  · intro nm hnm
    obtain ⟨x, hx, he⟩ := List.mem_map.mp hnm
    exact ⟨x, hx, he.symm⟩

/-- Claim C12, at the failing input. One sub-result with the sequence `a` and its two
registers (`ss = 2`): the branch for `n == 1` returns the sub-result with its names
renamed and leaves `nperfile_` as it was, empty, so that the sum of `nperfile` is 0
while the merged result has one row. -/
theorem merge_single_leaves_nperfile :
    (merge [subResultWithSigs ["a"]] ["x.fa"]).map
        (fun r => (r.nperfile_, r.names_.length, r.signatures_.length))
      = some ([], 1, 2) ∧
    ([] : List Nat).sum ≠ 1 := by
  decide

/-- With at least two sub-results of which the first has no sequence, `merge` does not
return: line 529 divides by `start->names_.size()`, which is zero. -/
theorem merge_first_empty (first second : SketchingResult) (more : List SketchingResult)
    (names : List String) (h : first.names_ = []) :
    merge (first :: second :: more) names = none := by
  simp [merge, h]

/-- Claim C19, at the failing input. Two sub-results, the first without sequences (an
input file with no record) and the second with the sequence `c`: `merge` divides
`signatures.len()` by `names.len()` = 0 at line 529 and returns no result. -/
theorem merge_divides_by_zero :
    (subResult []).names_.length = 0 ∧
    merge [subResult [], subResult ["c"]] ["x.fa", "y.fa"] = none := by
  decide

/-! ## Bottom-k under its precondition -/

/-- Claim C13. For every options value and path list: when the path list is empty,
`fastx2sketch` fails with the error of line 122, and when it is not empty but the space is
EDIT_DISTANCE with `parse_by_seq_` off, it fails with the error of line 164; in both
cases no file has been tested for existence, inspected, opened for reading or opened
for writing. -/
theorem fastx2sketch_rejects_before_io (R : Renderers) (opts : Dashing2Options)
    (sizeofRegT : Nat) (fs : FS) (paths : List String) (inputs : String → FileInput)
    (byseq : List FileEvent × Except SketchError (List FileOutcome)) :
    (paths = [] →
      fastx2sketch R opts sizeofRegT fs paths inputs byseq
        = ([], Except.error SketchError.emptyPaths)) ∧
    (paths ≠ [] → opts.sspace_ = SketchSpace.SPACE_EDIT_DISTANCE →
      opts.parse_by_seq_ = false →
      fastx2sketch R opts sizeofRegT fs paths inputs byseq
        = ([], Except.error SketchError.editDistanceNeedsParseBySeq)) := by
  constructor
  · intro h
    subst h
    simp [fastx2sketch, fastx2sketchSetup]
  · intro hne hs hp
    have hemp : paths.isEmpty = false := by
      cases paths with
      | nil => exact absurd rfl hne
      | cons p ps => rfl
    simp [fastx2sketch, fastx2sketchSetup, hemp, buildPools, hs, hp]

/-- Witness for `fastx2sketch_rejects_before_io`: the empty path list, and the path `a.fa`
with EDIT_DISTANCE and `parse_by_seq_` off. -/
theorem fastx2sketch_rejects_before_io_witness :
    fastx2sketch sampleRenderers sampleOpts 8 [("a.fa", 100)] [] (fun _ => sampleInput)
        ([], Except.ok [])
      = ([], Except.error SketchError.emptyPaths) ∧
    fastx2sketch sampleRenderers
        { sampleOpts with sspace_ := SketchSpace.SPACE_EDIT_DISTANCE } 8 [("a.fa", 100)]
        ["a.fa"] (fun _ => sampleInput) ([], Except.ok [])
      = ([], Except.error SketchError.editDistanceNeedsParseBySeq) :=
  ⟨(fastx2sketch_rejects_before_io sampleRenderers sampleOpts 8 [("a.fa", 100)] []
      (fun _ => sampleInput) ([], Except.ok [])).1 rfl,
   (fastx2sketch_rejects_before_io sampleRenderers
      { sampleOpts with sspace_ := SketchSpace.SPACE_EDIT_DISTANCE } 8 [("a.fa", 100)]
      ["a.fa"] (fun _ => sampleInput) ([], Except.ok [])).2 (by decide) rfl rfl⟩

/-- Claim C17, at the failing input. MULTISET space with `save_kmercounts_` and
`build_count_matrix_` both off as supplied: the pool of BagMinHash sketches is built at
line 156 with the count-tracking argument `false`, because `save_kmercounts_` is set
only afterwards, at line 200; the loop over paths then reads it as `true`. -/
theorem bmhs_built_before_counts_forced :
    (fastx2sketchSetup { sampleOpts with sspace_ := SketchSpace.SPACE_MULTISET }
        ["a.fa"]).toOption.map (fun p => (p.1.bmhs, p.2.save_kmercounts_))
      = some (some { ss := 4, save_ids := false, save_counts := false }, true) := by
  decide

/-! ## Result-matrix writes and element width -/

/-- Claim C15, at the failing input. MULTISET space with `build_sig_matrix_` off, four
registers, one path: `ret.signatures_` is left empty by lines 244-246, yet the copy of
line 341 writes the four registers of the BagMinHash at `&ret.signatures_[0]`; the
write is not to a pre-sized matrix. The guarded copy of line 388 is skipped. -/
theorem multiset_writes_unsized_signatures :
    matrixSize
      { sampleOpts with sspace_ := SketchSpace.SPACE_MULTISET, build_sig_matrix_ := false,
                        save_kmercounts_ := true } 1 Matrix.signatures = 0 ∧
    rowWrites sampleRenderers
      { sampleOpts with sspace_ := SketchSpace.SPACE_MULTISET, build_sig_matrix_ := false,
                        save_kmercounts_ := true } 8 1 0 [("a.fa", 100)] "a.fa" sampleInput
      = [{ matrix := Matrix.signatures, start := 0, len := 4 }] ∧
    ¬ RowWrite.inRow
      { sampleOpts with sspace_ := SketchSpace.SPACE_MULTISET, build_sig_matrix_ := false,
                        save_kmercounts_ := true } 0
      { matrix := Matrix.signatures, start := 0, len := 4 } ∧
    sketchOnePath sampleRenderers
      { sampleOpts with sspace_ := SketchSpace.SPACE_MULTISET, build_sig_matrix_ := false }
      8 [("a.fa", 100)] "a.fa" sampleInput
      = Except.error SketchError.undefinedBehaviour := by
  refine ⟨by decide, by decide, ?_, rfl⟩
  intro h
  exact absurd h.1 (by decide)

/-- Claim C16, at the failing input. DNA with `k = 32` and `use128` off reaches Mode B: the
exact encoder emits 16-byte values, but the buffer is allocated and written at 8 bytes
per element; for the four stored m-mers the destination receives 32 bytes, room for two
of them. -/
theorem sequence_width_mismatch :
    encoderBytes
      { sampleOpts with k_ := 32, kmer_result_ := KmerSketchResultType.FULL_MMER_SEQUENCE }
      = 16 ∧
    bufferBytes
      { sampleOpts with k_ := 32, kmer_result_ := KmerSketchResultType.FULL_MMER_SEQUENCE }
      = 8 ∧
    sketchOnePath sampleRenderers
      { sampleOpts with k_ := 32, kmer_result_ := KmerSketchResultType.FULL_MMER_SEQUENCE }
      8 [("a.fa", 100)] "a.fa" sampleInput
      = Except.ok { fs := [("a.fa.32.SET.DNA.ss", 32), ("a.fa", 100)],
                    branch := Branch.modeB, emitted := 4, cardinality := some 4 } ∧
    seqBytesWritten
      { sampleOpts with k_ := 32, kmer_result_ := KmerSketchResultType.FULL_MMER_SEQUENCE }
      4 = 32 ∧
    storedElements
      { sampleOpts with k_ := 32, kmer_result_ := KmerSketchResultType.FULL_MMER_SEQUENCE }
      32 = 2 :=
  ⟨by decide, by decide, rfl, by decide, by decide⟩

/-! ## `sketch_core`, BED and BIGWIG input -/

theorem sizePairsFrom_snd (nbytes : String → Nat) : ∀ (paths : List String) (i : Nat),
    (sizePairsFrom nbytes i paths).map Prod.snd = List.range' i paths.length
  | [], _ => rfl
  | p :: rest, i => by
    simp only [sizePairsFrom, map_cons, length_cons, range'_succ]
    rw [sizePairsFrom_snd nbytes rest (i + 1)]

/-- The file indices `get_filesizes` returns are a rearrangement of `0, ..., npaths - 1`:
the loop of `sketch_core` visits every row index exactly once. -/
theorem get_filesizes_indices (nbytes : String → Nat) (paths : List String) :
    ((get_filesizes nbytes paths).map Prod.snd).Perm (List.range paths.length) := by
  unfold get_filesizes
  refine ((perm_insertionSort _ _).map _).trans ?_
  rw [sizePairsFrom_snd, range_eq_range']

/-- Claim C18, at the failing input. Paths `[small.bed, big.bed]` of 1 and 2 bytes, one
register per file: `get_filesizes` puts the larger file first, so the loop stores
`names_[0] = big.bed` (line 33) while row 0 and cardinality 0 receive the sketch of
`small.bed` (lines 37 and 48, indexed by `myind`); `names_[0]` is not `paths[0]`, and
the name of each row is the name of the other file. -/
theorem sketch_core_names_follow_size_order :
    get_filesizes sampleNbytes ["small.bed", "big.bed"] = [(2, 1), (1, 0)] ∧
    (sketch_core_bed 1 sampleNbytes sampleSketchFile ["small.bed", "big.bed"]).map
        (fun r => r.names_)
      = some ["big.bed", "small.bed"] ∧
    (sketch_core_bed 1 sampleNbytes sampleSketchFile ["small.bed", "big.bed"]).map
        (fun r => r.signatures_)
      = some [(sampleSketchFile "small.bed").1, (sampleSketchFile "big.bed").1].flatten ∧
    (sketch_core_bed 1 sampleNbytes sampleSketchFile ["small.bed", "big.bed"]).map
        (fun r => r.cardinalities_)
      = some [(sampleSketchFile "small.bed").2, (sampleSketchFile "big.bed").2] ∧
    (sketch_core_bed 1 sampleNbytes sampleSketchFile ["small.bed", "big.bed"]).map
        (fun r => r.names_)
      ≠ some ["small.bed", "big.bed"] := by
  decide

/-! ## By-sequence merger: shape for two or more files -/

theorem mergeLoop_signatures_copy (names : List String) (offsets sig_offsets : List Nat)
    (f1 f3 f4 : Bool) :
    ∀ (rest : List SketchingResult) (i : Nat) (ret ret2 : SketchingResult) (A : List ℚ),
      mergeLoop names offsets sig_offsets f1 true f3 f4 i rest ret = some ret2 →
      ret.signatures_ = A ++ replicate ((rest.map (fun r => r.signatures_.length)).sum) 0 →
      (∀ j, j < rest.length →
        sig_offsets.getD (i + j) 0
          = A.length + ((rest.take j).map (fun r => r.signatures_.length)).sum) →
      ret2.signatures_ = A ++ (rest.map (fun r => r.signatures_)).flatten
  | [], i, ret, ret2, A, hrun, hret, _ => by
    simp only [mergeLoop, Option.some.injEq] at hrun
    subst hrun
    simpa using hret
  | src :: rest, i, ret, ret2, A, hrun, hret, hofs => by
    have h0 : sig_offsets.getD i 0 = A.length := by
      have := hofs 0 (by simp)
      simpa using this
    simp only [mergeLoop] at hrun
    cases hstep : mergeStep names offsets sig_offsets f1 true f3 f4 i src ret with
    | none => rw [hstep] at hrun; cases hrun
    | some ret1 =>
      rw [hstep] at hrun
      obtain ⟨_, _, hg, _⟩ := mergeStep_of_some _ _ _ _ _ _ _ _ _ _ _ hstep
      have hsig1 : ret1.signatures_
          = (A ++ src.signatures_)
            ++ replicate ((rest.map (fun r => r.signatures_.length)).sum) 0 := by
        rw [if_pos rfl, hret, h0] at hg
        simp only [map_cons, sum_cons] at hg
        rw [copyInto_block] at hg
        exact (Option.some.inj hg).symm
      rw [mergeLoop_signatures_copy names offsets sig_offsets f1 f3 f4 rest (i + 1) ret1 ret2
        (A ++ src.signatures_) hrun hsig1 (by
          intro j hj
          have := hofs (j + 1) (by simp; omega)
          rw [show i + (j + 1) = i + 1 + j by omega] at this
          rw [this]
          simp only [take_succ_cons, map_cons, sum_cons, length_append]
          omega)]
      simp

theorem mergeLoop_signatures_skip (names : List String) (offsets sig_offsets : List Nat)
    (f1 f3 f4 : Bool) :
    ∀ (rest : List SketchingResult) (i : Nat) (ret ret2 : SketchingResult),
      mergeLoop names offsets sig_offsets f1 false f3 f4 i rest ret = some ret2 →
      ret2.signatures_ = ret.signatures_
  | [], _, ret, ret2, hrun => by
    simp only [mergeLoop, Option.some.injEq] at hrun
    rw [hrun]
  | src :: rest, i, ret, ret2, hrun => by
    simp only [mergeLoop] at hrun
    cases hstep : mergeStep names offsets sig_offsets f1 false f3 f4 i src ret with
    | none => rw [hstep] at hrun; cases hrun
    | some ret1 =>
      rw [hstep] at hrun
      obtain ⟨_, _, hg, _⟩ := mergeStep_of_some _ _ _ _ _ _ _ _ _ _ _ hstep
      rw [mergeLoop_signatures_skip names offsets sig_offsets f1 f3 f4 rest (i + 1) ret1 ret2
        hrun]
      simp only [Bool.false_eq_true, if_false, Option.some.injEq] at hg
      exact hg.symm

theorem length_namesFrom (names : List String) : ∀ (rest : List SketchingResult) (i : Nat),
    (namesFrom names i rest).length = (rest.map (fun r => r.names_.length)).sum
  | [], _ => rfl
  | src :: rest, i => by
    simp only [namesFrom, length_append, length_map, map_cons, sum_cons]
    rw [length_namesFrom names rest (i + 1)]

theorem length_flatten_signatures (ss : Nat) : ∀ (start : List SketchingResult),
    (∀ r ∈ start, r.signatures_.length = r.names_.length * ss) →
    ((start.map (fun r => r.signatures_)).flatten).length
      = (start.map (fun r => r.names_.length)).sum * ss
  | [], _ => by simp
  | r :: rest, h => by
    simp only [map_cons, flatten_cons, length_append, sum_cons]
    rw [length_flatten_signatures ss rest (fun x hx => h x (mem_cons_of_mem _ hx)),
      h r (mem_cons_self _ _)]
    ring

theorem flatten_nil_of_lengths : ∀ (start : List SketchingResult),
    (∀ r ∈ start, r.signatures_.length = 0) →
    (start.map (fun r => r.signatures_)).flatten = [] ∧
      (start.map (fun r => r.signatures_.length)).sum = 0
  | [], _ => by simp
  | r :: rest, h => by
    obtain ⟨h1, h2⟩ := flatten_nil_of_lengths rest (fun x hx => h x (mem_cons_of_mem _ hx))
    have hr := h r (mem_cons_self _ _)
    simp only [map_cons, flatten_cons, sum_cons, h1, h2, hr, append_nil]
    exact ⟨length_eq_zero.mp hr, trivial⟩

/-- The shape of the merged result for two or more sub-results of which the first has a
sequence, each of the shape the by-sequence sketcher delivers for sketch size `ss`
(`ss` registers per name): `merge` returns, `nperfile` sums to the number of merged
names, the merged signatures are the signatures of the files in file order, and there
are `ss` of them per row. -/
theorem merge_shape (start : List SketchingResult) (names : List String) (ss : Nat)
    (hn : 2 ≤ start.length)
    (hfirst : ∀ r, start.head? = some r → r.names_ ≠ [])
    (hc : ∀ r ∈ start, r.Consistent ss) :
    ∃ ret, merge start names = some ret ∧
      ret.nperfile_.sum = ret.names_.length ∧
      ret.signatures_ = (start.map (fun r => r.signatures_)).flatten ∧
      ret.signatures_.length = ret.nperfile_.sum * ss := by
  match start, hn, hfirst, hc with
  | first :: second :: more, _, hfirst, hc =>
    have hsig : ∀ r ∈ first :: second :: more, r.signatures_.length = r.names_.length * ss :=
      fun r hr => (hc r hr).2.2.1
    have hne : first.names_.length ≠ 0 := by
      have := hfirst first rfl
      intro h
      exact this (length_eq_zero.mp h)
    obtain ⟨ret, hret⟩ :=
      merge_some_of_consistent first second more names ss (hfirst first rfl) hc
    obtain ⟨hnm, hnp⟩ := merge_some_names first second more names ret hret
    have hs : ret.signatures_
        = ((first :: second :: more).map (fun r => r.signatures_)).flatten := by
      have hrun := hret
      simp only [merge, hne, if_false] at hrun
      cases hfs : first.signatures_ with
      | nil =>
        have hss : ss = 0 := by
          have := hsig first (mem_cons_self _ _)
          rw [hfs] at this
          simp only [length_nil] at this
          rcases Nat.mul_eq_zero.mp this.symm with h | h
          · exact absurd h hne
          · exact h
        have hall : ∀ r ∈ first :: second :: more, r.signatures_.length = 0 := by
          intro r hr
          rw [hsig r hr, hss, Nat.mul_zero]
        obtain ⟨hflat, hsum⟩ := flatten_nil_of_lengths _ hall
        rw [hfs] at hrun
        simp only [isEmpty_nil, Bool.not_true] at hrun
        rw [mergeLoop_signatures_skip _ _ _ _ _ _ _ _ _ _ hrun, hflat]
        simp only [hsum]
        simp
      | cons q qs =>
        rw [hfs] at hrun
        simp only [isEmpty_cons, Bool.not_false] at hrun
        rw [mergeLoop_signatures_copy names _ _ _ _ _ (first :: second :: more) 0 _ ret []
          hrun]
        · simp
        · have hpos :
              0 < ((first :: second :: more).map (fun r => r.signatures_.length)).sum := by
            simp [hfs]
          simp only [nil_append, hpos, if_true, gt_iff_lt]
        · intro j hj
          rw [Nat.zero_add, offsetsFrom_getD _ _ _ (by simp at hj ⊢; omega)]
          simp [map_take]
    refine ⟨ret, hret, ?_, hs, ?_⟩
    · rw [hnp, hnm, length_namesFrom]
    · rw [hs, hnp]
      exact length_flatten_signatures ss _ hsig

/-- Witness for `merge_shape`: files with the sequences `[a, b]` and `[c]`, two registers
per sequence. -/
theorem merge_shape_witness :
    ∃ ret, merge [subResultWithSigs ["a", "b"], subResultWithSigs ["c"]] ["x.fa", "y.fa"]
        = some ret ∧
      ret.nperfile_.sum = 3 ∧ ret.signatures_.length = 6 := by
  obtain ⟨ret, h1, h2, _, h4⟩ :=
    merge_shape [subResultWithSigs ["a", "b"], subResultWithSigs ["c"]] ["x.fa", "y.fa"] 2
      (by decide) (by intro r h; cases h; decide) (by decide)
  have h5 : (merge [subResultWithSigs ["a", "b"], subResultWithSigs ["c"]]
      ["x.fa", "y.fa"]).map (fun r => r.nperfile_.sum) = some 3 := by decide
  rw [h1] at h5
  have h6 : ret.nperfile_.sum = 3 := Option.some.inj h5
  exact ⟨ret, h1, h6, by rw [h4, h6]⟩

end Dashing2
